import Mathlib

/-!
Verification development for the bank-statement parsing engine
(`pdf_parser.py`).  The Python source is shallowly embedded: text is
`List Char`, Python floats are exact rationals (`ℚ`), fallible
operations return `Option`, and the handful of compiled regular
expressions are expressed over a small backtracking matcher whose
preference order (leftmost, alternation left-first, greedy/lazy
repetition) mirrors the semantics of the Python `re` module on the
ASCII inputs this pipeline handles.
-/

set_option maxRecDepth 100000

namespace PdfParser

/-- Text is modelled as a list of characters. -/
abbrev Str := List Char

/-- The apostrophe character (used in the account-header name class). -/
def apoChar : Char := Char.ofNat 39

/-- Characters matched by the `\s` class of the Python `re` module, and
stripped by `str.strip`, restricted to the characters this pipeline can
see (ASCII whitespace plus the no-break space, which Python also treats
as whitespace). -/
def isSpaceChar (c : Char) : Bool :=
  c = ' ' || c = '\t' || c = '\n' || c = '\r' || c = '\x0b' ||
  c = '\x0c' || c = ' '

/-- ASCII decimal digit, the `\d` class on the inputs handled here. -/
def isDigitChar (c : Char) : Bool := '0' ≤ c && c ≤ '9'

/-- ASCII word character, the `\w` class used by `\b` word boundaries. -/
def isWordChar (c : Char) : Bool :=
  ('a' ≤ c && c ≤ 'z') || ('A' ≤ c && c ≤ 'Z') || isDigitChar c || c = '_'

/-- `str.strip` from the left. -/
def pyLStrip (s : Str) : Str := s.dropWhile isSpaceChar

/-- `str.rstrip`. -/
def pyRStrip (s : Str) : Str := (s.reverse.dropWhile isSpaceChar).reverse

/-- `str.strip`. -/
def pyStrip (s : Str) : Str := pyLStrip (pyRStrip s)

/-- Digits-to-number (the string is assumed to consist of digits). -/
def natOfDigits (s : Str) : Nat :=
  s.foldl (fun n c => n * 10 + (c.toNat - ('0').toNat)) 0

/-- `str.split()` with no separator: split on whitespace runs, dropping
empty pieces. -/
def pySplitWs : Str → List Str
  | [] => []
  | c :: r =>
    if isSpaceChar c then pySplitWs r
    else
      match pySplitWs r with
      | [] => [[c]]
      | t :: ts =>
        match r with
        | [] => [[c]]
        | d :: _ => if isSpaceChar d then [c] :: t :: ts else (c :: t) :: ts

/-- Join a list of token strings with single spaces (`" ".join`). -/
def joinSpace : List Str → Str
  | [] => []
  | [t] => t
  | t :: ts => t ++ ' ' :: joinSpace ts

/-- First-occurrence deduplication, with an accumulator of already
seen values (models iteration over the keys of a
`collections.Counter`, which preserves insertion order). -/
def firstOccsAux (seen : List Int) : List Int → List Int
  | [] => []
  | x :: r =>
    if seen.contains x then firstOccsAux seen r
    else x :: firstOccsAux (x :: seen) r

/-- The distinct values of a list, in first-occurrence order. -/
def firstOccs (l : List Int) : List Int := firstOccsAux [] l

/-- `Counter.most_common(1)` head: most frequent element, earliest first
occurrence winning ties (Python `Counter` sorts stably over insertion
order). -/
def mostCommonFirst (l : List Int) : Option Int :=
  (firstOccs l).foldl
    (fun best y =>
      match best with
      | none => some y
      | some b => if l.count y > l.count b then some y else best)
    none

/-- Stable insertion step for a descending sort by the `Nat` component
(`list.sort(key=count, reverse=True)`), ties keeping original order. -/
def insDescByCount (x : Int × Nat) : List (Int × Nat) → List (Int × Nat)
  | [] => [x]
  | y :: r => if y.2 > x.2 then y :: insDescByCount x r else x :: y :: r

/-- Stable descending sort by count. -/
def sortDescByCount (l : List (Int × Nat)) : List (Int × Nat) :=
  l.foldr insDescByCount []

/-- Generic stable insertion (used to model the stable sorts of Python
and the order-only-relevant sorts of pandas). -/
def insertByLe (le : α → α → Bool) (x : α) : List α → List α
  | [] => [x]
  | y :: r => if le x y then x :: y :: r else y :: insertByLe le x r

/-- Generic stable insertion sort. -/
def sortByLe (le : α → α → Bool) (l : List α) : List α :=
  l.foldr (insertByLe le) []

/-- Lexicographic comparison on character lists. -/
def lexLeStr : Str → Str → Bool
  | [], _ => true
  | _ :: _, [] => false
  | a :: as, b :: bs =>
    if a < b then true else if b < a then false else lexLeStr as bs

/-- Rational ≤ as a Bool. -/
def qLe (a b : ℚ) : Bool := a ≤ b

/-- Sort a list of rationals ascending (used for the median). -/
def sortQ (l : List ℚ) : List ℚ := sortByLe qLe l

/-- Median in the manner of `pandas.Series.median`: middle element of
the sorted values, or the mean of the two middle elements. -/
def medianQ (l : List ℚ) : Option ℚ :=
  let s := sortQ l
  let n := s.length
  if n = 0 then none
  else if n % 2 = 1 then s.get? (n / 2)
  else
    match s.get? (n / 2 - 1), s.get? (n / 2) with
    | some a, some b => some ((a + b) / 2)
    | _, _ => none

end PdfParser

namespace PdfParser

/-! ## A small backtracking regular-expression matcher

The constructors cover exactly the features the compiled patterns of
the source use.  `reM` returns the first success in the preference
order of the Python `re` engine: alternation tries the left branch
first, greedy repetition tries longer first, lazy repetition shorter
first, and failures backtrack into earlier choice points.  Fuel makes
the definition total; it is chosen generously at the call sites. -/

inductive RE where
  | eps
  | anyChar
  | lit (c : Char)
  | ilit (c : Char)
  | digit
  | space
  | oneOf (cs : List Char)
  | seq (a b : RE)
  | alt (a b : RE)
  | rep (a : RE) (lo : Nat) (hi : Option Nat) (lazy : Bool)
  | wordB
  | eos
  | nla (a : RE)
  | grp (n : Nat) (a : RE)
deriving Repr, DecidableEq

/-- Captured groups: `(group number, start, end)`, most recent first. -/
abbrev Caps := List (Nat × Nat × Nat)

/-- Is position `i` a word boundary of `s`? -/
def isBoundary (s : Str) (i : Nat) : Bool :=
  let wl := if i = 0 then false else
    match s.get? (i - 1) with
    | some c => isWordChar c
    | none => false
  let wr :=
    match s.get? i with
    | some c => isWordChar c
    | none => false
  wl != wr

/-- The core matcher, in continuation-passing style.  `k` receives the
position after the current sub-pattern and the captures collected so
far; alternatives are tried in engine preference order. -/
def reM (s : Str) : Nat → RE → Nat → Caps →
    (Nat → Caps → Option (Nat × Caps)) → Option (Nat × Caps)
  | 0, _, _, _, _ => none
  | fuel + 1, re, i, caps, k =>
    match re with
    | .eps => k i caps
    | .anyChar =>
      match s.get? i with
      | some c => if c ≠ '\n' then k (i + 1) caps else none
      | none => none
    | .lit c =>
      match s.get? i with
      | some c' => if c' = c then k (i + 1) caps else none
      | none => none
    | .ilit c =>
      match s.get? i with
      | some c' => if c'.toLower = c.toLower then k (i + 1) caps else none
      | none => none
    | .digit =>
      match s.get? i with
      | some c => if isDigitChar c then k (i + 1) caps else none
      | none => none
    | .space =>
      match s.get? i with
      | some c => if isSpaceChar c then k (i + 1) caps else none
      | none => none
    | .oneOf cs =>
      match s.get? i with
      | some c => if cs.contains c then k (i + 1) caps else none
      | none => none
    | .seq a b => reM s fuel a i caps (fun j caps' => reM s fuel b j caps' k)
    | .alt a b =>
      match reM s fuel a i caps k with
      | some r => some r
      | none => reM s fuel b i caps k
    | .rep a lo hi lz =>
      match lo with
      | lo' + 1 =>
        reM s fuel a i caps (fun j caps' =>
          reM s fuel (.rep a lo' (hi.map (· - 1)) lz) j caps' k)
      | 0 =>
        match hi with
        | some 0 => k i caps
        | _ =>
          let hi' := hi.map (· - 1)
          if lz then
            match k i caps with
            | some r => some r
            | none =>
              reM s fuel a i caps (fun j caps' =>
                if j ≤ i then none
                else reM s fuel (.rep a 0 hi' lz) j caps' k)
          else
            match reM s fuel a i caps (fun j caps' =>
                if j ≤ i then none
                else reM s fuel (.rep a 0 hi' lz) j caps' k) with
            | some r => some r
            | none => k i caps
    | .wordB => if isBoundary s i then k i caps else none
    | .eos => if i = s.length then k i caps else none
    | .nla a =>
      match reM s fuel a i caps (fun j caps' => some (j, caps')) with
      | some _ => none
      | none => k i caps
    | .grp n a => reM s fuel a i caps (fun j caps' => k j ((n, i, j) :: caps'))

/-- Fuel bound: ample for the small patterns of this file. -/
def reFuel (s : Str) : Nat := (s.length + 8) * 128

/-- Try to match `re` at position `i` of `s`; returns the end position
and the captures (the semantics of `pattern.match` when `i = 0`). -/
def reMatchAt (re : RE) (s : Str) (i : Nat) : Option (Nat × Caps) :=
  reM s (reFuel s) re i [] (fun j caps => some (j, caps))

/-- `pattern.match(s)`: anchored at position 0. -/
def reMatch (re : RE) (s : Str) : Option (Nat × Caps) := reMatchAt re s 0

/-- Scan for the leftmost match starting at position `i` or later. -/
def reSearchFrom (re : RE) (s : Str) : Nat → Nat → Option (Nat × Nat × Caps)
  | 0, _ => none
  | fuel + 1, i =>
    match reMatchAt re s i with
    | some (j, caps) => some (i, j, caps)
    | none => if i < s.length then reSearchFrom re s fuel (i + 1) else none

/-- `pattern.search(s)`: `(start, end, captures)` of the leftmost match. -/
def reSearch (re : RE) (s : Str) : Option (Nat × Nat × Caps) :=
  reSearchFrom re s (s.length + 2) 0

/-- `pattern.finditer(s)`: non-overlapping leftmost matches, advancing
one position past empty matches as the Python scanner does. -/
def reFindIterAux (re : RE) (s : Str) : Nat → Nat → List (Nat × Nat × Caps)
  | 0, _ => []
  | fuel + 1, i =>
    if i > s.length then []
    else
      match reSearchFrom re s (s.length + 2) i with
      | none => []
      | some (st, en, caps) =>
        (st, en, caps) :: reFindIterAux re s fuel (if en > st then en else en + 1)

/-- All matches of `re` in `s`, in order. -/
def reFinditer (re : RE) (s : Str) : List (Nat × Nat × Caps) :=
  reFindIterAux re s (s.length + 2) 0

/-- Captured span of group `n` (most recent repetition, as in Python). -/
def capGet (caps : Caps) (n : Nat) : Option (Nat × Nat) :=
  (caps.find? (fun t => t.1 = n)).map (fun t => (t.2.1, t.2.2))

/-- The substring of `s` between positions `a` and `b`. -/
def sliceCL (s : Str) (a b : Nat) : Str := (s.drop a).take (b - a)

/-! Pattern combinators. -/

/-- Sequence a list of patterns. -/
def rSeqs (l : List RE) : RE := l.foldr .seq .eps

/-- Greedy `{lo,hi}` repetition of a digit or other atom. -/
def rRange (a : RE) (lo hi : Nat) : RE := .rep a lo (some hi) false

/-- Greedy `?`. -/
def rOpt (a : RE) : RE := .rep a 0 (some 1) false

/-- Greedy `*`. -/
def rStar (a : RE) : RE := .rep a 0 none false

/-- Greedy `+`. -/
def rPlus (a : RE) : RE := .rep a 1 none false

/-- A case-insensitive literal word. -/
def rIStr (w : String) : RE := rSeqs (w.data.map .ilit)

/-- A case-sensitive literal word. -/
def rLits (w : String) : RE := rSeqs (w.data.map .lit)

/-- `\d{lo,hi}`. -/
def rDigits (lo hi : Nat) : RE := rRange .digit lo hi

/-- The date separator class: slash or hyphen. -/
def rSep : RE := .oneOf ['/', '-']

end PdfParser

namespace PdfParser

/-! ## The compiled patterns of the source, as matcher values -/

/-- `DATE_START_RX`: an anchored one- or two-part date token, not
immediately followed by a range dash, ending at a word boundary.
Group 1 is the date token. -/
def DATE_START_RX : RE :=
  rSeqs [.grp 1 (rSeqs [rDigits 1 2, rSep, rDigits 1 2,
                        rOpt (rSeqs [rSep, rDigits 2 4])]),
         .nla (rSeqs [rStar .space, .lit '-', rStar .space,
                      rDigits 1 2, rSep, rDigits 1 2]),
         .wordB]

/-- Comma-grouped integer: one to three digits then comma-separated
three-digit groups. -/
def rGroupedInt : RE :=
  .seq (rDigits 1 3) (rPlus (rSeqs [.lit ',', rDigits 3 3]))

/-- Plain integer. -/
def rPlainInt : RE := .rep .digit 1 none false

/-- The integer part of an amount token. -/
def rIntPart : RE := .alt rGroupedInt rPlainInt

/-- Optional two-digit cents. -/
def rCents : RE := rOpt (.seq (.lit '.') (rDigits 2 2))

/-- `AMOUNT_TOKEN_RX`: a whole token shaped like a currency value, in
parenthesised or signed form. -/
def AMOUNT_TOKEN_RX : RE :=
  .seq
    (.alt
      (rSeqs [.lit '(',
              .grp 1 (rSeqs [rOpt (.lit '$'), rIntPart, rCents]),
              .lit ')'])
      (rSeqs [rOpt (.grp 2 (.lit '-')), rOpt (.lit '$'), rIntPart, rCents,
              rOpt (.grp 3 (.lit '-'))]))
    .eos

/-- `YEAR_IN_RANGE_RX`: a three-part date, group 1 being the year. -/
def YEAR_IN_RANGE_RX : RE :=
  rSeqs [.wordB, rDigits 1 2, rSep, rDigits 1 2, rSep,
         .grp 1 (rDigits 2 4), .wordB]

/-- One date of a statement-period range; `gOuter` captures the whole
date, `gYear` its year digits. -/
def rPeriodDate (gOuter gYear : Nat) : RE :=
  .grp gOuter (rSeqs [rDigits 1 2, rSep, rDigits 1 2, rSep,
                      .grp gYear (rDigits 2 4)])

/-- `STATEMENT_PERIOD_RX`: an optional case-insensitive
`Statement Period` banner with lazy filler, then `date - date`.
Year groups are 2 and 4. -/
def STATEMENT_PERIOD_RX : RE :=
  rSeqs [rOpt (rSeqs [rIStr "Statement", rPlus .space, rIStr "Period",
                      .rep .anyChar 0 none true]),
         rPeriodDate 1 2, rStar .space, .lit '-', rStar .space,
         rPeriodDate 3 4]

/-- The character class of an account-header name word. -/
def nameChars : List Char :=
  "ABCDEFGHIJKLMNOPQRSTUVWXYZabcdefghijklmnopqrstuvwxyz&./-".data ++ [apoChar]

/-- The name part of an account header: words over `nameChars`
separated by whitespace. -/
def rName : RE :=
  .seq (rPlus (.oneOf nameChars))
       (rStar (.seq (rPlus .space) (rPlus (.oneOf nameChars))))

/-- The shared body of `ACCOUNT_HEADER_RX` (used anchored, via
`reMatch`) and `ACCOUNT_HEADER_INLINE_RX` (used unanchored, via
`reSearch`): `Name - Number` with a six-plus-digit number.  Group 1 is
the name, group 2 the number. -/
def ACCOUNT_HEADER_CORE : RE :=
  rSeqs [.grp 1 rName, rStar .space, .lit '-', rStar .space,
         .grp 2 (.rep .digit 6 none false), .wordB]

/-- The local `date_prefix` pattern of the line merger: a date-shaped
prefix with optional year part. -/
def DATE_PREFIX_RX : RE :=
  rSeqs [rDigits 1 2, rSep, rDigits 1 2,
         rOpt (rSeqs [rSep, rDigits 2 4]), .wordB]

/-- The inline unparsed-line test of the assembler: a two-part
date-shaped prefix. -/
def SHORT_DATE_RX : RE :=
  rSeqs [rDigits 1 2, rSep, rDigits 1 2, .wordB]

/-- Page-number footer boilerplate. -/
def PAGE_FOOTER_RX : RE :=
  rSeqs [rIStr "Page", rPlus .space, rPlus .digit, rPlus .space,
         rIStr "of", rPlus .space, rPlus .digit, .eos]

/-- `Statement Period` banner boilerplate. -/
def STMT_PERIOD_BANNER_RX : RE :=
  rSeqs [rIStr "Statement", rPlus .space, rIStr "Period", .eos]

/-- `Statement of Account` banner boilerplate. -/
def STMT_OF_ACCOUNT_RX : RE :=
  rSeqs [rIStr "Statement", rPlus .space, rIStr "of", rPlus .space,
         rIStr "Account", .eos]

/-- `HEADER_FOOTER_PATTERNS_RX`. -/
def HEADER_FOOTER_PATTERNS_RX : List RE :=
  [PAGE_FOOTER_RX, STMT_PERIOD_BANNER_RX, STMT_OF_ACCOUNT_RX]

/-- Word-boundary search for `mm` or `mmsa` (the pattern
`\bmm(sa)?\b`, applied to the already lowercased normalized name). -/
def MM_RX : RE :=
  rSeqs [.wordB, .lit 'm', .lit 'm',
         rOpt (.seq (.lit 's') (.lit 'a')), .wordB]

/-- Word-boundary search for `chk`. -/
def CHK_RX : RE := rSeqs [.wordB, rLits "chk", .wordB]

/-- Word-boundary search for `draft`. -/
def DRAFT_RX : RE := rSeqs [.wordB, rLits "draft", .wordB]

end PdfParser

namespace PdfParser

/-! ## Amount Normalizer (`normalize_number`) -/

/-- The residual-token shape `re.fullmatch` check of `normalize_number`:
nonempty digits, optionally followed by a dot and nonempty digits. -/
def isNumericCore (s : Str) : Bool :=
  let intDigits := s.takeWhile isDigitChar
  let rest := s.drop intDigits.length
  match rest with
  | [] => !intDigits.isEmpty
  | '.' :: frac => !intDigits.isEmpty && !frac.isEmpty && frac.all isDigitChar
  | _ => false

/-- Count occurrences of a character (`str.count`). -/
def countChar (s : Str) (c : Char) : Nat := s.count c

/-- The rational value of `int_part.frac_part` digit strings. -/
def ratOfParts (intPart frac : Str) : ℚ :=
  (natOfDigits intPart : ℚ) + (natOfDigits frac : ℚ) / (10 ^ frac.length : ℚ)

/-- `normalize_number`: parse a currency-like token into a signed
rational, or reject.  A faithful transliteration of the source,
including the fact that commas are stripped before the
longer-than-seven-digits integer rejection. -/
def normalize_number (raw : Str) : Option ℚ :=
  if raw = [] then none
  else
    let token0 := pyStrip raw
    let neg1 := token0.getLast? = some '-' && countChar token0 '-' = 1
    let token1 := if neg1 then token0.dropLast else token0
    let par := token1.head? = some '(' && token1.getLast? = some ')'
    let token2 := if par then (token1.drop 1).dropLast else token1
    let nosym := token2.filter (fun c => c ≠ '$' && c ≠ ',')
    let negL := nosym.head? = some '-'
    let core := if negL then nosym.drop 1 else nosym
    let neg := neg1 || par || negL
    if !isNumericCore core then none
    else if !core.contains '.' && core.length > 7 then none
    else
      let intPart := core.takeWhile (· ≠ '.')
      let frac := (core.drop intPart.length).drop 1
      if core.contains '.' && !(1 ≤ frac.length && frac.length ≤ 2) then none
      else
        let v : ℚ :=
          if core.contains '.' then
            ratOfParts intPart (if frac.length = 1 then frac ++ ['0'] else frac)
          else (natOfDigits core : ℚ)
        if v > 1000000000 then none
        else some (if neg then -v else v)

/-! ## Date Resolver (`parse_date`) -/

/-- Calendar dates as produced by `datetime.date`. -/
structure PyDate where
  year : Int
  month : Nat
  day : Nat
deriving DecidableEq, Repr

/-- Gregorian leap-year rule. -/
def isLeap (y : Int) : Bool := (y % 4 = 0 && y % 100 ≠ 0) || y % 400 = 0

/-- Days in a month. -/
def daysInMonth (y : Int) (m : Nat) : Nat :=
  if m = 2 then (if isLeap y then 29 else 28)
  else if m = 4 || m = 6 || m = 9 || m = 11 then 30
  else 31

/-- `datetime(y, m, d)`: `some` exactly when the arguments form a valid
date in the `datetime` range (years 1 to 9999); otherwise the
constructor raises, which the callers turn into a fallback. -/
def mkPyDate (y m d : Int) : Option PyDate :=
  if 1 ≤ y && y ≤ 9999 && 1 ≤ m && m ≤ 12 && 1 ≤ d &&
     d ≤ (daysInMonth y m.toNat : Int)
  then some ⟨y, m.toNat, d.toNat⟩ else none

/-- A resolved date or the original raw token (the tagged fallback of
`parse_date`). -/
inductive DateVal where
  | d (dt : PyDate)
  | raw (s : Str)
deriving DecidableEq, Repr

/-- Numeric value of a digit character. -/
def dval (c : Char) : Nat := c.toNat - ('0').toNat

/-- The candidate parses of a `%m` field, in the preference order of
the `strptime` pattern `1[0-2]|0[1-9]|[1-9]`. -/
def mCands (s : Str) : List (Nat × Str) :=
  (match s with
   | c1 :: c2 :: r =>
     if c1 = '1' && '0' ≤ c2 && c2 ≤ '2' then [(10 + dval c2, r)] else []
   | _ => []) ++
  (match s with
   | c1 :: c2 :: r =>
     if c1 = '0' && '1' ≤ c2 && c2 ≤ '9' then [(dval c2, r)] else []
   | _ => []) ++
  (match s with
   | c :: r => if '1' ≤ c && c ≤ '9' then [(dval c, r)] else []
   | [] => [])

/-- The candidate parses of a `%d` field
(`3[01]|[12]\d|0[1-9]|[1-9]`). -/
def dCands (s : Str) : List (Nat × Str) :=
  (match s with
   | c1 :: c2 :: r =>
     if c1 = '3' && (c2 = '0' || c2 = '1') then [(30 + dval c2, r)] else []
   | _ => []) ++
  (match s with
   | c1 :: c2 :: r =>
     if (c1 = '1' || c1 = '2') && isDigitChar c2
     then [(10 * dval c1 + dval c2, r)] else []
   | _ => []) ++
  (match s with
   | c1 :: c2 :: r =>
     if c1 = '0' && '1' ≤ c2 && c2 ≤ '9' then [(dval c2, r)] else []
   | _ => []) ++
  (match s with
   | c :: r => if '1' ≤ c && c ≤ '9' then [(dval c, r)] else []
   | [] => [])

/-- The candidate parses of a year field: `%Y` is exactly four digits,
`%y` exactly two with the 69-pivot century rule. -/
def yCands (s : Str) (four : Bool) : List (Int × Str) :=
  if four then
    match s with
    | a :: b :: c :: d :: r =>
      if isDigitChar a && isDigitChar b && isDigitChar c && isDigitChar d
      then [((natOfDigits [a, b, c, d] : Int), r)] else []
    | _ => []
  else
    match s with
    | a :: b :: r =>
      if isDigitChar a && isDigitChar b then
        [(((if natOfDigits [a, b] ≤ 68 then 2000 + natOfDigits [a, b]
            else 1900 + natOfDigits [a, b] : Nat) : Int), r)]
      else []
    | _ => []

/-- Try each candidate in order, taking the first success. -/
def tryEach (cands : List α) (k : α → Option β) : Option β :=
  match cands with
  | [] => none
  | c :: r =>
    match k c with
    | some x => some x
    | none => tryEach r k

/-- Consume the literal separator of a format. -/
def expectSep (sep : Char) : Str → Option Str
  | c :: r => if c = sep then some r else none
  | [] => none

/-- `datetime.strptime(raw, fmt).date()` for one of the eight formats
used by `parse_date`: two day/month fields and a year separated by
`sep`, month first when `monthFirst`, four-digit year when `fourY`,
matching the whole string and validating the resulting date.  (For
these formats at most one candidate split reaches the validation, so
trying candidates in order is equivalent to the single regex match of
`strptime`.) -/
def strptimeFmt (raw : Str) (sep : Char) (monthFirst fourY : Bool) :
    Option PyDate :=
  let f1 := if monthFirst then mCands else dCands
  let f2 := if monthFirst then dCands else mCands
  tryEach (f1 raw) (fun c1 =>
    (expectSep sep c1.2).bind (fun r1 =>
      tryEach (f2 r1) (fun c2 =>
        (expectSep sep c2.2).bind (fun r2 =>
          tryEach (yCands r2 fourY) (fun cy =>
            if cy.2 = [] then
              let m := if monthFirst then c1.1 else c2.1
              let d := if monthFirst then c2.1 else c1.1
              mkPyDate cy.1 (m : Int) (d : Int)
            else none)))))

/-- The eight formats, in source priority order:
`(separator, month-first, four-digit-year)`. -/
def strptimeFormats : List (Char × Bool × Bool) :=
  [('-', true, true), ('-', true, false), ('-', false, true),
   ('-', false, false), ('/', true, true), ('/', true, false),
   ('/', false, true), ('/', false, false)]

/-- The `strptime` fallback loop of `parse_date`: first format that
parses wins, otherwise the raw token is returned. -/
def tryFormats (raw : Str) : DateVal :=
  match strptimeFormats.foldl
      (fun acc (f : Char × Bool × Bool) =>
        match acc with
        | some dt => some dt
        | none => strptimeFmt raw f.1 f.2.1 f.2.2)
      none with
  | some dt => .d dt
  | none => .raw raw

/-- `re.split` on the slash-or-hyphen class: empty pieces are kept and
the number of pieces is one more than the number of separators. -/
def splitSeps : Str → List Str
  | [] => [[]]
  | c :: rest =>
    if c = '/' || c = '-' then [] :: splitSeps rest
    else
      match splitSeps rest with
      | [] => [[c]]
      | p :: ps => (c :: p) :: ps

/-- Python `int(str)`: optional surrounding whitespace, an optional
sign, then nonempty digits (underscore digit grouping is not
modelled). -/
def pyIntOfStr (s : Str) : Option Int :=
  let t := pyStrip s
  let signed : Bool × Str :=
    match t with
    | '-' :: r => (true, r)
    | '+' :: r => (false, r)
    | r => (false, r)
  if signed.2 ≠ [] && signed.2.all isDigitChar then
    some (if signed.1 then -(natOfDigits signed.2 : Int)
          else (natOfDigits signed.2 : Int))
  else none

/-- `parse_date`: the two-part branch uses the inferred year (Python
truthiness makes year 0 unavailable) and the larger-than-12
disambiguation; otherwise the `strptime` format loop runs; the raw
token is returned whenever nothing yields a valid date. -/
def parse_date (raw : Str) (default_year : Option Int)
    (date_order : Option Str) : DateVal :=
  match splitSeps raw, default_year with
  | [p1, p2], some y =>
    if y ≠ 0 then
      match pyIntOfStr p1, pyIntOfStr p2 with
      | some a, some b =>
        let md : Int × Int :=
          if a > 12 && b ≤ 12 then (b, a)
          else if b > 12 && a ≤ 12 then (a, b)
          else if date_order = some "DM".data then (b, a)
          else (a, b)
        match mkPyDate y md.1 md.2 with
        | some dt => .d dt
        | none => .raw raw
      | _, _ => .raw raw
    else tryFormats raw
  | _, _ => tryFormats raw

end PdfParser

namespace PdfParser

/-! ## Account Context Tracker (`classify_account`) -/

/-- `str.lower` (ASCII; the keyword tests only involve ASCII). -/
def pyLower (s : Str) : Str := s.map Char.toLower

/-- A character kept by the name-normalization substitution. -/
def isKeepChar (c : Char) : Bool :=
  ('a' ≤ c && c ≤ 'z') || isDigitChar c || c = ' '

/-- `re.sub` of every maximal run outside lowercase-alphanumeric-space
by a single space; the flag records whether the previous character was
inside such a run. -/
def normPunctAux : Bool → Str → Str
  | _, [] => []
  | inRun, c :: r =>
    if isKeepChar c then c :: normPunctAux false r
    else if inRun then normPunctAux true r
    else ' ' :: normPunctAux true r

/-- `re.sub(r"[^a-z0-9 ]+", " ", n)`. -/
def normPunct (s : Str) : Str := normPunctAux false s

/-- Python substring membership (`pat in s`). -/
def containsSub (pat : Str) : Str → Bool
  | [] => pat.isEmpty
  | c :: r => pat.isPrefixOf (c :: r) || containsSub pat r

/-- The money-market keyword condition of `classify_account`, over the
lowercased punctuation-stripped name. -/
def mmCond (n_norm : Str) : Bool :=
  containsSub "money market".data n_norm || (reSearch MM_RX n_norm).isSome

/-- The checking keyword condition. -/
def chkCond (n_norm : Str) : Bool :=
  containsSub "checking".data n_norm || (reSearch CHK_RX n_norm).isSome ||
  containsSub "share draft".data n_norm || (reSearch DRAFT_RX n_norm).isSome

/-- The savings keyword condition. -/
def savCond (n_norm : Str) : Bool :=
  containsSub "savings".data n_norm || containsSub "saving".data n_norm ||
  (containsSub "share".data n_norm && !containsSub "draft".data n_norm)

/-- `classify_account`: keyword classification in the fixed order
money-market, checking, savings. -/
def classify_account (name : Option Str) : Option Str :=
  match name with
  | none => none
  | some nm =>
    if nm = [] then none
    else
      let n_norm := normPunct (pyLower nm)
      if mmCond n_norm then some "money_market_savings".data
      else if chkCond n_norm then some "checking".data
      else if savCond n_norm then some "savings".data
      else none

/-! ## Year Inferencer (`infer_year`) -/

/-- Expand a matched year-digit group as the source does: two digits
are prefixed with `20`, otherwise the digits are read as they are. -/
def expandYear (y : Str) : Int :=
  if y.length = 2 then (natOfDigits ('2' :: '0' :: y) : Int)
  else (natOfDigits y : Int)

/-- The years of every `YEAR_IN_RANGE_RX` match of a line. -/
def lineYears (line : Str) : List Int :=
  (reFinditer YEAR_IN_RANGE_RX line).filterMap
    (fun m => (capGet m.2.2 1).map (fun p => expandYear (sliceCL line p.1 p.2)))

/-- The two years of every `STATEMENT_PERIOD_RX` match of a line. -/
def linePeriodYears (line : Str) : List Int :=
  (reFinditer STATEMENT_PERIOD_RX line).flatMap
    (fun m =>
      match capGet m.2.2 2, capGet m.2.2 4 with
      | some p, some q =>
        [expandYear (sliceCL line p.1 p.2), expandYear (sliceCL line q.1 q.2)]
      | _, _ => [])

/-- `infer_year`: frequency count of all years, with the
two-consecutive-years tie-break through statement-period matches.
Iteration over the Python `set` of period years is modelled in
first-occurrence order (the theorems below avoid tie-order
dependence). -/
def infer_year (all_lines : List Str) : Option Int :=
  let years := all_lines.flatMap lineYears
  let period_years := all_lines.flatMap linePeriodYears
  if years = [] then none
  else
    let tie : Option Int :=
      match firstOccs years with
      | [u, v] =>
        if (u - v = 1 || v - u = 1) && !period_years.isEmpty then
          let period_counts :=
            ((firstOccs period_years).filter (fun z => years.contains z)).map
              (fun z => (z, years.count z))
          match sortDescByCount period_counts with
          | (z, _) :: _ => some z
          | [] => none
        else none
      | _ => none
    match tie with
    | some z => some z
    | none => mostCommonFirst years

end PdfParser

namespace PdfParser

/-! ## Line Parser (`parse_line`) -/

/-- A transaction record (the dict built by `parse_line`; `line_type`
is always `"transaction"` there). -/
structure Row where
  date : DateVal
  date_raw : Str
  description : Str
  amount : Option ℚ
  debit : Option ℚ
  credit : Option ℚ
  balance : Option ℚ
  account_name : Option Str
  account_number : Option Str
  account_type : Option Str
  line_type : Str
  raw_line : Str
deriving DecidableEq, Repr

/-- `_looks_money` (and the identical inline test of the 2-token
case): the token has one of `(`, `)`, `.`, `-`, or a dot. -/
def looksMoney (tok : Str) : Bool :=
  tok.any (fun c => c = '(' || c = ')' || c = '.' || c = '-') ||
  tok.contains '.'

/-- `str.isdigit` for ASCII input: nonempty and all digits. -/
def pyIsDigit (s : Str) : Bool := !s.isEmpty && s.all isDigitChar

/-- Does a whole token match the amount-token shape? -/
def isAmountTok (t : Str) : Bool := (reMatch AMOUNT_TOKEN_RX t).isSome

/-- The right-to-left peel of up to three trailing amount-shaped
tokens.  The input is the reversed token list; the result is the
trailing tokens restored to left-to-right order paired with the
remaining tokens in original order. -/
def peelRev : Nat → List Str → List Str × List Str
  | _, [] => ([], [])
  | n, t :: rest =>
    if n < 3 && isAmountTok t then
      let p := peelRev (n + 1) rest
      (p.1 ++ [t], p.2)
    else ([], (t :: rest).reverse)

/-- The 3-token reference-number adjustment: a long pure-digit first
trailing token ahead of money-looking tokens is pushed back into the
description. -/
def adjustRef3 (description : Str) (trailing : List Str) :
    Str × List Str :=
  if trailing.length = 3 then
    match trailing with
    | ref :: tail =>
      if pyIsDigit ref && ref.length ≥ 5 && !ref.contains '.' &&
         tail.any looksMoney
      then (pyStrip (description ++ ' ' :: ref), tail)
      else (description, trailing)
    | [] => (description, trailing)
  else (description, trailing)

/-- Interpretation of the trailing tokens by count, returning
`(amount, debit, credit, balance, description)` exactly as the
corresponding branches of the source set them. -/
def interpretTrailing (description : Str) (trailing : List Str) :
    Option ℚ × Option ℚ × Option ℚ × Option ℚ × Str :=
  match trailing with
  | [t1, t2, t3] =>
    (match normalize_number t1, normalize_number t2, normalize_number t3 with
     | some a1, some a2, some b =>
       if (a1 < 0 && 0 < a2) || (a2 < 0 && 0 < a1) then
         let debit := if a1 < 0 then some |a1|
                      else if a2 < 0 then some |a2| else none
         let credit := if a1 > 0 then some a1
                       else if a2 > 0 then some a2 else none
         ((credit.getD 0) - (debit.getD 0), debit, credit, some b, description)
       else (some a1, none, none, some b, description)
     | some a1, none, some b => (some a1, none, none, some b, description)
     | _, _, _ => (none, none, none, none, description))
  | [t0, t1] =>
    let looks_ref := pyIsDigit t0 && t0.length ≥ 5 && !t0.contains '.'
    let looks_money := looksMoney t1
    if looks_ref && looks_money then
      let description := pyStrip (description ++ ' ' :: t0)
      match normalize_number t1 with
      | some a1 =>
        if !(pyIsDigit t1 && t1.length > 8)
        then (some a1, none, none, none, description)
        else (none, none, none, none, description)
      | none => (none, none, none, none, description)
    else
      match normalize_number t0, normalize_number t1 with
      | some a1, some a2 =>
        if |a2| ≥ |a1| || (t1.contains ',' && !t0.contains ',') then
          (some a1, none, none, some a2, description)
        else (some a1, none, none, none, description)
      | some a1, none => (some a1, none, none, none, description)
      | none, some a2 => (some a2, none, none, none, description)
      | none, none => (none, none, none, none, description)
  | [t0] =>
    (match normalize_number t0 with
     | some a1 =>
       if !(pyIsDigit t0 && t0.length > 8)
       then (some a1, none, none, none, description)
       else (none, none, none, none,
             if t0 ≠ [] then pyStrip (description ++ ' ' :: t0)
             else description)
     | none =>
       (none, none, none, none,
        if t0 ≠ [] then pyStrip (description ++ ' ' :: t0) else description))
  | _ => (none, none, none, none, description)

/-- `parse_line`: date-prefix gate, trailing-token peel, the heuristic
branches, debit/credit derivation from the amount sign, and rejection
when no numeric field was populated. -/
def parse_line (line : Str) (default_year : Option Int)
    (account_name account_number account_type : Option Str)
    (date_order : Option Str) : Option Row :=
  match reMatch DATE_START_RX line with
  | none => none
  | some (mEnd, caps) =>
    let date_raw :=
      match capGet caps 1 with
      | some p => sliceCL line p.1 p.2
      | none => []
    let rest := pyStrip (line.drop mEnd)
    let tokens := pySplitWs rest
    if tokens = [] then none
    else
      let peeled := peelRev 0 tokens.reverse
      let description0 := pyStrip (joinSpace peeled.2)
      if description0 = [] then none
      else if description0 = "Beginning Balance".data ||
              description0 = "Ending Balance".data then none
      else
        let adj := adjustRef3 description0 peeled.1
        let res := interpretTrailing adj.1 adj.2
        let amount := res.1
        let balance := res.2.2.2.1
        let description := res.2.2.2.2
        let dc : Option ℚ × Option ℚ :=
          match amount, res.2.1, res.2.2.1 with
          | some a, none, none =>
            if a < 0 then (some (-a), none)
            else if a > 0 then (none, some a)
            else (none, none)
          | _, d, c => (d, c)
        if amount = none && balance = none && dc.1 = none && dc.2 = none
        then none
        else
          some { date := parse_date date_raw default_year date_order,
                 date_raw := date_raw,
                 description := description,
                 amount := amount,
                 debit := dc.1,
                 credit := dc.2,
                 balance := balance,
                 account_name := account_name,
                 account_number := account_number,
                 account_type := account_type,
                 line_type := "transaction".data,
                 raw_line := line }

end PdfParser

namespace PdfParser

/-! ## Line Extractor and Merger (`extract_raw_lines`) -/

/-- A word box from the external extraction collaborator. -/
structure PWord where
  text : Str
  top : ℚ
  x0 : ℚ
deriving DecidableEq, Repr

/-- One page of the external extraction collaborator: the page text
(`extract_text() or ""`) and the word boxes (`extract_words() or []`). -/
structure Page where
  text : Str
  words : List PWord
deriving DecidableEq, Repr

/-- The document input: `.error` stands for the class of inputs on
which the external text extraction raises, `.ok pages` for a document
that extracts into the given pages. -/
abbrev PdfInput := Except Unit (List Page)

/-- Split at newline characters, keeping interior empty lines (other
Unicode line boundaries of `str.splitlines` are not modelled). -/
def splitOnNl : Str → List Str
  | [] => [[]]
  | c :: rest =>
    if c = '\n' then [] :: splitOnNl rest
    else
      match splitOnNl rest with
      | [] => [[c]]
      | p :: ps => (c :: p) :: ps

/-- `str.splitlines`: like splitting on newlines but with no trailing
empty piece. -/
def pySplitlines (s : Str) : List Str :=
  if s = [] then []
  else
    let ps := splitOnNl s
    if ps.getLast? = some [] then ps.dropLast else ps

/-- Collapse runs of spaces and tabs to a single space (the inner
substitution of `_normalize_space`); the flag records whether the
previous character was inside such a run. -/
def collapseSpTabAux : Bool → Str → Str
  | _, [] => []
  | inRun, c :: r =>
    if c = ' ' || c = '\t' then
      if inRun then collapseSpTabAux true r
      else ' ' :: collapseSpTabAux true r
    else c :: collapseSpTabAux false r

/-- The space-and-tab-run substitution of `_normalize_space`. -/
def collapseSpTab (s : Str) : Str := collapseSpTabAux false s

/-- `_normalize_space`: no-break spaces become spaces, space-and-tab
runs collapse, then strip. -/
def _normalize_space (s : Str) : Str :=
  pyStrip (collapseSpTab (s.map (fun c => if c = ' ' then ' ' else c)))

/-- Does a normalized line match one of the header/footer boilerplate
patterns? -/
def isHeaderFooter (s : Str) : Bool :=
  HEADER_FOOTER_PATTERNS_RX.any (fun rx => (reMatch rx s).isSome)

/-- The raw-mode lines of one page. -/
def rawModeLines (drop_header_footer : Bool) (p_idx : Nat) (text : Str) :
    List (Nat × Str) :=
  (pySplitlines text).filterMap (fun rawLine =>
    let s := pyRStrip rawLine
    if s = [] then none
    else
      let s_norm := _normalize_space s
      if s_norm = [] then none
      else if drop_header_footer && isHeaderFooter s_norm then none
      else some (p_idx, s_norm))

/-- Word ordering by `(top, x0)`. -/
def wordLe (a b : PWord) : Bool :=
  if a.top < b.top then true
  else if b.top < a.top then false
  else a.x0 ≤ b.x0

/-- The clustering loop of the words mode: append a word to the last
cluster when its vertical position is within the tolerance of the
cluster head, else start a new cluster. -/
def groupWordsStep (grouped : List (List PWord)) (w : PWord) :
    List (List PWord) :=
  match grouped.getLast? with
  | none => [[w]]
  | some last_line =>
    match last_line.head? with
    | some w0 =>
      if |w.top - w0.top| ≤ 3 then grouped.dropLast ++ [last_line ++ [w]]
      else grouped ++ [[w]]
    | none => grouped ++ [[w]]

/-- Word ordering by `x0` alone (within a cluster). -/
def wordLeX (a b : PWord) : Bool := a.x0 ≤ b.x0

/-- The words-mode lines of one page. -/
def wordsModeLines (drop_header_footer : Bool) (p_idx : Nat)
    (words : List PWord) : List (Nat × Str) :=
  let grouped := (sortByLe wordLe words).foldl groupWordsStep []
  grouped.filterMap (fun group =>
    let group_sorted := sortByLe wordLeX group
    let text_line := joinSpace (group_sorted.map (·.text))
    let s_norm := _normalize_space text_line
    if s_norm = [] then none
    else if drop_header_footer && isHeaderFooter s_norm then none
    else some (p_idx, s_norm))

/-- One step of the wrapped-line merge: append, or merge into the
previous line when both lie on the same page, neither starts with a
date-shaped prefix, and neither contains an inline account header. -/
def mergeStep (merged : List (Nat × Str)) (pt : Nat × Str) :
    List (Nat × Str) :=
  match merged.getLast? with
  | none => [pt]
  | some (prev_pg, prev_text) =>
    let prev_sd := (reMatch DATE_PREFIX_RX prev_text).isSome
    let curr_sd := (reMatch DATE_PREFIX_RX pt.2).isSome
    let prev_h := (reSearch ACCOUNT_HEADER_CORE prev_text).isSome
    let curr_h := (reSearch ACCOUNT_HEADER_CORE pt.2).isSome
    if pt.1 = prev_pg && !prev_sd && !curr_sd && !prev_h && !curr_h then
      merged.dropLast ++ [(prev_pg, prev_text ++ ' ' :: pt.2)]
    else merged ++ [pt]

/-- `extract_raw_lines`: per-page extraction in the requested mode,
then optional wrapped-line merging.  Any extraction failure yields the
empty list (the `except` clause of the source); `include_coords` is
accepted and ignored, as in the source. -/
def extract_raw_lines (pdf_file : PdfInput) (mode : Str)
    (merge_wrapped : Bool) (include_coords : Bool)
    (drop_header_footer : Bool) : List (Nat × Str) :=
  match pdf_file with
  | .error _ => []
  | .ok pages =>
    let _ := include_coords
    let lines :=
      pages.enum.flatMap (fun pp =>
        if mode = "raw".data then
          rawModeLines drop_header_footer (pp.1 + 1) pp.2.text
        else wordsModeLines drop_header_footer (pp.1 + 1) pp.2.words)
    if merge_wrapped && !lines.isEmpty then lines.foldl mergeStep []
    else lines

/-! ## Statement Assembler (`parse_bank_statement`) -/

/-- Extract the account header of a line, anchored first and inline
otherwise: `(stripped name, number)`. -/
def headerOfLine (line : Str) : Option (Str × Str) :=
  let fromCaps := fun (caps : Caps) =>
    match capGet caps 1, capGet caps 2 with
    | some p, some q =>
      some (pyStrip (sliceCL line p.1 p.2), sliceCL line q.1 q.2)
    | _, _ => none
  match reMatch ACCOUNT_HEADER_CORE line with
  | some (_, caps) => fromCaps caps
  | none =>
    match reSearch ACCOUNT_HEADER_CORE line with
    | some (_, _, caps) => fromCaps caps
    | none => none

/-- The account context: `(name, number, type)`. -/
abbrev AcctCtx := Option Str × Option Str × Option Str

/-- The page tag of an unparsed audit entry: `[p<page>] <line>`. -/
def pageTag (pg : Nat) (line : Str) : Str :=
  '[' :: 'p' :: (Nat.repr pg).data ++ ']' :: ' ' :: line

/-- The document pass of `parse_bank_statement`: update the account
context from any header on the line, then hand the line (with the
updated context) to the line parser; failures with a date-shaped
prefix are audited. -/
def docPass (default_year : Option Int) (ctx : AcctCtx) :
    List (Nat × Str) → List Row × List Str
  | [] => ([], [])
  | (pg, line) :: rest =>
    let ctx' : AcctCtx :=
      match headerOfLine line with
      | some h => (some h.1, some h.2, classify_account (some h.1))
      | none => ctx
    let tail := docPass default_year ctx' rest
    match parse_line line default_year ctx'.1 ctx'.2.1 ctx'.2.2 none with
    | some rec => (rec :: tail.1, tail.2)
    | none =>
      if (reMatch SHORT_DATE_RX line).isSome
      then (tail.1, pageTag pg line :: tail.2)
      else tail

/-- The sort key date: resolved dates order chronologically, raw
fallbacks count as missing (`NaT`) and sort last.  (The occasional
`pandas.to_datetime` coercion of a raw string is not modelled; no
claim depends on the relative order of raw-dated rows.) -/
def rowDateKey (r : Row) : Option PyDate :=
  match r.date with
  | .d dt => some dt
  | .raw _ => none

/-- Missing-last comparison of optional strings. -/
def leOptStr : Option Str → Option Str → Bool
  | some a, some b => lexLeStr a b
  | some _, none => true
  | none, some _ => false
  | none, none => true

/-- Date comparison on `(year, month, day)`. -/
def leDate (a b : PyDate) : Bool :=
  if a.year < b.year then true
  else if b.year < a.year then false
  else if a.month < b.month then true
  else if b.month < a.month then false
  else a.day ≤ b.day

/-- Missing-last comparison of optional dates. -/
def leOptDate : Option PyDate → Option PyDate → Bool
  | some a, some b => leDate a b
  | some _, none => true
  | none, some _ => false
  | none, none => true

/-- Strict version of `leOptStr`. -/
def ltOptStr (a b : Option Str) : Bool := leOptStr a b && !leOptStr b a

/-- The `(account_type, account_number, date)` row order of the
assembler (modelled as a stable sort; the source uses an unstable sort
whose tie order no claim depends on). -/
def rowLe (a b : Row) : Bool :=
  if ltOptStr a.account_type b.account_type then true
  else if ltOptStr b.account_type a.account_type then false
  else if ltOptStr a.account_number b.account_number then true
  else if ltOptStr b.account_number a.account_number then false
  else leOptDate (rowDateKey a) (rowDateKey b)

/-- The outlier-suppression step: when the median absolute present
amount is positive, rows whose absolute amount exceeds fifty times the
median lose `amount`, `debit` and `credit`. -/
def suppressOutliers (rows : List Row) : List Row :=
  let amts := rows.filterMap (·.amount)
  if amts.isEmpty then rows
  else
    match medianQ (amts.map (fun a => |a|)) with
    | some med =>
      if med > 0 then
        let cutoff := med * 50
        rows.map (fun r =>
          match r.amount with
          | some a =>
            if |a| > cutoff then
              { r with amount := none, debit := none, credit := none }
            else r
          | none => r)
      else rows
    | none => rows

/-- `parse_bank_statement`: extract, infer the year, run the document
pass, then sort, suppress outliers, and drop all-absent rows.  Total
by construction: the `try/except` of the source never fires in the
embedding, and extraction failure surfaces as the empty extraction
result. -/
def parse_bank_statement (pdf_file : PdfInput) :
    List Row × List Str × List (Nat × Str) :=
  let raw_lines := extract_raw_lines pdf_file "raw".data true false true
  let default_year := infer_year (raw_lines.map (·.2))
  let pass := docPass default_year (none, none, none) raw_lines
  if pass.1 = [] then ([], pass.2, raw_lines)
  else
    let sorted := sortByLe rowLe pass.1
    let suppressed := suppressOutliers sorted
    let final := suppressed.filter (fun r =>
      !(r.amount = none && r.debit = none && r.credit = none &&
        r.balance = none))
    (final, pass.2, raw_lines)

end PdfParser

namespace PdfParser

/-! ## Balance Reconciler (`compute_balance_mismatches`) -/

/-- Round to nearest integer, ties to even (Python `round`), on the
exact rational value of the float. -/
def roundHalfEven (q : ℚ) : Int :=
  let f := ⌊q⌋
  let r := q - (f : ℚ)
  if r < 1 / 2 then f
  else if r > 1 / 2 then f + 1
  else if f % 2 = 0 then f else f + 1

/-- `round(x, 2)`. -/
def round2 (q : ℚ) : ℚ := (roundHalfEven (q * 100) : ℚ) / 100

/-- A balance mismatch record.  The `index` is the row label in the
input table (modelled as the position in the input list). -/
structure Mismatch where
  index : Nat
  account_number : Option Str
  date : DateVal
  description : Str
  amount : ℚ
  prev_balance : ℚ
  expected_balance : ℚ
  provided_balance : ℚ
  delta : ℚ
deriving DecidableEq, Repr

/-- Build the mismatch record of one row. -/
def mkMismatch (idx : Nat) (acct : Option Str) (r : Row) (a lb : ℚ)
    (b : ℚ) : Mismatch :=
  { index := idx,
    account_number := acct,
    date := r.date,
    description := r.description,
    amount := a,
    prev_balance := lb,
    expected_balance := round2 (lb + a),
    provided_balance := round2 b,
    delta := round2 (round2 b - round2 (lb + a)) }

/-- The per-group loop of `compute_balance_mismatches`: marker rows
reset the running balance without reconciliation; other rows emit a
mismatch when amount, balance and a prior balance are all present and
the discrepancy exceeds the tolerance, and any row carrying a balance
updates the running balance. -/
def processGroup (tol : ℚ) (acct : Option Str) (lastB : Option ℚ) :
    List (Nat × Row) → List Mismatch
  | [] => []
  | (idx, r) :: rest =>
    if r.line_type = "marker".data then
      processGroup tol acct
        (match r.balance with | some b => some b | none => lastB) rest
    else
      let emit : List Mismatch :=
        match r.amount, r.balance, lastB with
        | some a, some b, some lb =>
          if |round2 (lb + a) - round2 b| > tol
          then [mkMismatch idx acct r a lb b] else []
        | _, _, _ => []
      emit ++ processGroup tol acct
        (match r.balance with | some b => some b | none => lastB) rest

/-- Sort key of the reconciler: `(account_number, date_raw)`, missing
account numbers last (as pandas places them). -/
def reconLe (a b : Nat × Row) : Bool :=
  if ltOptStr a.2.account_number b.2.account_number then true
  else if ltOptStr b.2.account_number a.2.account_number then false
  else lexLeStr a.2.date_raw b.2.date_raw

/-- Group consecutive rows with equal account number (after the sort
this is exactly the pandas `groupby`). -/
def groupConsecAcct : List (Nat × Row) → List (List (Nat × Row))
  | [] => []
  | p :: r =>
    match groupConsecAcct r with
    | [] => [[p]]
    | [] :: gs => [p] :: [] :: gs
    | (q :: g) :: gs =>
      if p.2.account_number = q.2.account_number then (p :: q :: g) :: gs
      else [p] :: (q :: g) :: gs

/-- The account number of a group (its key). -/
def groupAcct (g : List (Nat × Row)) : Option Str :=
  match g.head? with
  | some p => p.2.account_number
  | none => none

/-- `compute_balance_mismatches`: sort by `(account_number, date_raw)`,
group by account number, and run the per-group loop with an absent
seed balance. -/
def compute_balance_mismatches (df : List Row) (tolerance : ℚ) :
    List Mismatch :=
  if df = [] then []
  else
    let sorted := sortByLe reconLe df.enum
    (groupConsecAcct sorted).flatMap (fun g =>
      processGroup tolerance (groupAcct g) none g)

/-! ## Declarative reconciliation (the specification side of C4) -/

/-- The running balance available before position `i` of a group: the
last balance carried by an earlier row, if any. -/
def lastBalBefore (g : List (Nat × Row)) (i : Nat) : Option ℚ :=
  ((g.take i).filterMap (fun p => p.2.balance)).getLast?

/-- The declarative mismatch list of one group: position `i` emits
exactly when its amount and balance are present, some earlier row
carried a balance, and the rounded discrepancy exceeds the
tolerance. -/
def mismatchesSpec (tol : ℚ) (acct : Option Str)
    (g : List (Nat × Row)) : List Mismatch :=
  (List.range g.length).filterMap (fun i =>
    match g.get? i with
    | some (idx, r) =>
      match r.amount, r.balance, lastBalBefore g i with
      | some a, some b, some lb =>
        if |round2 (lb + a) - round2 b| > tol
        then some (mkMismatch idx acct r a lb b) else none
      | _, _, _ => none
    | none => none)

end PdfParser

namespace PdfParser

/-! ## Claim theorems -/

/-- Claim C1: `parse_bank_statement` never raises for malformed input
(in the embedding it is a total function into a `StatementResult`
triple), and on every input on which the external text extraction
fails, `extract_raw_lines` returns the empty sequence — with any mode
and flags — so the core entry point returns the all-empty result
rather than propagating the failure. -/
theorem extraction_failure_yields_empty_result :
    (∀ (mode : Str) (mw ic dh : Bool),
      extract_raw_lines (Except.error ()) mode mw ic dh = []) ∧
    parse_bank_statement (Except.error ()) = ([], [], []) := by
  refine ⟨fun mode mw ic dh => rfl, ?_⟩
  rfl

/-- Claim C2 (code evaluated at the failing input): the Amount
Normalizer rejects the eight-digit integer token both without and with
thousands separators — the comma-exception promised by its own
docstring is not implemented, because separators are stripped before
the length test — while a seven-digit comma-grouped token is
accepted. -/
theorem normalize_number_comma_exception_missing :
    normalize_number "12345678".data = none ∧
    normalize_number "12,345,678".data = none ∧
    normalize_number "1,234,567".data = some 1234567 := by
  refine ⟨by decide, by decide, by decide⟩

/-- Claim C7: `classify_account` applies its keyword rules over the
lowercased punctuation-stripped name in the fixed order money-market,
checking, savings: the three specification examples classify as
checking, money-market-savings and savings respectively, any name
whose normalized form satisfies the money-market condition classifies
as money-market regardless of the later rules, a non-money-market
name satisfying the checking condition classifies as checking, a name
satisfying only the savings condition classifies as savings, and a
name matching no rule is unclassified. -/
theorem classify_account_keyword_order :
    classify_account (some "Share Draft - 123456".data) =
      some "checking".data ∧
    classify_account (some "Money Market Savings - 654321".data) =
      some "money_market_savings".data ∧
    classify_account (some "Primary Share - 111111".data) =
      some "savings".data ∧
    (∀ nm : Str, mmCond (normPunct (pyLower nm)) = true →
      classify_account (some nm) = some "money_market_savings".data) ∧
    (∀ nm : Str, mmCond (normPunct (pyLower nm)) = false →
      chkCond (normPunct (pyLower nm)) = true →
      classify_account (some nm) = some "checking".data) ∧
    (∀ nm : Str, mmCond (normPunct (pyLower nm)) = false →
      chkCond (normPunct (pyLower nm)) = false →
      savCond (normPunct (pyLower nm)) = true →
      classify_account (some nm) = some "savings".data) ∧
    (∀ nm : Str, mmCond (normPunct (pyLower nm)) = false →
      chkCond (normPunct (pyLower nm)) = false →
      savCond (normPunct (pyLower nm)) = false →
      classify_account (some nm) = none) := by
  refine ⟨by decide, by decide, by decide, ?_, ?_, ?_, ?_⟩
  · intro nm h
    by_cases hnm : nm = []
    · subst hnm; exact absurd h (by decide)
    · simp [classify_account, hnm, h]
  · intro nm h1 h2
    by_cases hnm : nm = []
    · subst hnm; exact absurd h2 (by decide)
    · simp [classify_account, hnm, h1, h2]
  · intro nm h1 h2 h3
    by_cases hnm : nm = []
    · subst hnm; exact absurd h3 (by decide)
    · simp [classify_account, hnm, h1, h2, h3]
  · intro nm h1 h2 h3
    by_cases hnm : nm = []
    · subst hnm; simp [classify_account]
    · simp [classify_account, hnm, h1, h2, h3]

/-- Witness for C7: the no-keyword clause applied at a concrete
unclassifiable name. -/
theorem classify_account_keyword_order_witness :
    classify_account (some "Brokerage".data) = none :=
  classify_account_keyword_order.2.2.2.2.2.2 "Brokerage".data
    (by decide) (by decide) (by decide)

end PdfParser

namespace PdfParser

/-- Is a row an outlier for a given median: its amount is present and
its magnitude exceeds fifty times the median. -/
def outlierCond (med : ℚ) (r : Row) : Bool :=
  match r.amount with
  | some a => decide (|a| > med * 50)
  | none => false

/-- Claim C6: when the median absolute present amount is positive, the
outlier-suppression step maps each row to itself except that exactly
the fields `amount`, `debit` and `credit` of the rows exceeding fifty
times the median are nulled; every other field (balance, date,
description, account fields, raw line) and every non-outlier row is
unchanged. -/
theorem outlier_suppression_frame (rows : List Row) (med : ℚ)
    (hmed : medianQ ((rows.filterMap (·.amount)).map (fun a => |a|)) =
      some med)
    (hpos : med > 0) :
    suppressOutliers rows = rows.map (fun r =>
      { date := r.date, date_raw := r.date_raw,
        description := r.description,
        amount := if outlierCond med r then none else r.amount,
        debit := if outlierCond med r then none else r.debit,
        credit := if outlierCond med r then none else r.credit,
        balance := r.balance, account_name := r.account_name,
        account_number := r.account_number,
        account_type := r.account_type, line_type := r.line_type,
        raw_line := r.raw_line }) := by
  have hne : (rows.filterMap (·.amount)).isEmpty = false := by
    rcases h : rows.filterMap (·.amount) with _ | ⟨x, xs⟩
    · exfalso
      rw [h] at hmed
      simp [medianQ, sortQ, sortByLe] at hmed
    · rw [h]
      rfl
  unfold suppressOutliers
  simp only [hne, Bool.false_eq_true, if_false, hmed, hpos, if_true]
  apply List.map_congr_left
  intro r _
  rcases r with ⟨rd, rdr, rds, ram, rde, rcr, rba, ran, rnu, rty, rlt, rll⟩
  rcases ram with _ | a
  · simp [outlierCond]
  · simp only [outlierCond]
    by_cases hc : |a| > med * 50
    · simp [hc]
    · simp [hc]

/-- A minimal transaction row for concrete witnesses. -/
def exRow (dr : String) (a b : Option ℚ) : Row :=
  { date := .raw dr.data, date_raw := dr.data, description := "x".data,
    amount := a, debit := a, credit := none, balance := b,
    account_name := none, account_number := some "1".data,
    account_type := none, line_type := "transaction".data,
    raw_line := dr.data }

/-- The outlier-suppression example rows of the specification: amounts
10, 12, 11, 9, 50000, the last carrying a balance. -/
def c6Rows : List Row :=
  [exRow "01" (some 10) none, exRow "02" (some 12) none,
   exRow "03" (some 11) none, exRow "04" (some 9) none,
   exRow "05" (some 50000) (some 123)]

/-- Witness for C6: on the specification example the median is 11 and
the suppression nulls exactly the amount/debit/credit of the 50000 row
while keeping its balance. -/
theorem outlier_suppression_frame_witness :
    medianQ ((c6Rows.filterMap (·.amount)).map (fun a => |a|)) =
      some 11 ∧
    suppressOutliers c6Rows =
      [exRow "01" (some 10) none, exRow "02" (some 12) none,
       exRow "03" (some 11) none, exRow "04" (some 9) none,
       { exRow "05" (some 50000) (some 123) with
         amount := none, debit := none, credit := none }] :=
  ⟨by with_unfolding_all decide,
   (outlier_suppression_frame c6Rows 11 (by with_unfolding_all decide)
     (by with_unfolding_all decide)).trans (by with_unfolding_all decide)⟩

end PdfParser

namespace PdfParser

/-! ## Lemmas for the Date Resolver claim (C8) -/

/-- The number of date separators in a string. -/
def countSeps (s : Str) : Nat := s.countP (fun c => c = '/' || c = '-')

/-- `splitSeps` never returns the empty list. -/
theorem splitSeps_ne_nil (s : Str) : splitSeps s ≠ [] := by
  cases s with
  | nil => simp [splitSeps]
  | cons c r =>
    by_cases h : c = '/' || c = '-'
    · simp [splitSeps, h]
    · rcases hr : splitSeps r with _ | ⟨p, ps⟩ <;> simp [splitSeps, h, hr]

/-- The number of pieces of `splitSeps` is one more than the number of
separators. -/
theorem splitSeps_length (s : Str) :
    (splitSeps s).length = countSeps s + 1 := by
  induction s with
  | nil => simp [splitSeps, countSeps]
  | cons c r ih =>
    by_cases h : c = '/' || c = '-'
    · simp [splitSeps, h, countSeps, List.countP_cons] at *
      omega
    · rcases hr : splitSeps r with _ | ⟨p, ps⟩
      · exact absurd hr (splitSeps_ne_nil r)
      · rw [hr] at ih
        simp [splitSeps, h, hr, countSeps, List.countP_cons] at *
        omega

/-- A successful `tryEach` succeeds on one of the candidates. -/
theorem tryEach_some {cands : List α} {k : α → Option β} {x : β}
    (h : tryEach cands k = some x) : ∃ c ∈ cands, k c = some x := by
  induction cands with
  | nil => simp [tryEach] at h
  | cons c r ih =>
    simp only [tryEach] at h
    rcases hk : k c with _ | y
    · rw [hk] at h
      simp only [] at h
      rcases ih h with ⟨c', hc', hk'⟩
      exact ⟨c', by simp [hc'], hk'⟩
    · rw [hk] at h
      simp only [] at h
      exact ⟨c, by simp, by rw [hk, h]⟩

/-- A digit character is not a separator. -/
theorem digit_not_sep {c : Char} (h : isDigitChar c = true) :
    (c = '/' || c = '-') = false := by
  rcases hc : (c = '/' || c = '-') with _ | _
  · rfl
  · exfalso
    simp only [Bool.or_eq_true, decide_eq_true_eq] at hc
    rcases hc with rfl | rfl <;> exact absurd h (by decide)

/-- Digit-only strings contain no separators. -/
theorem countSeps_digits {s : Str} (h : s.all isDigitChar = true) :
    countSeps s = 0 := by
  induction s with
  | nil => rfl
  | cons c r ih =>
    simp only [List.all_cons, Bool.and_eq_true] at h
    simp [countSeps, List.countP_cons, digit_not_sep h.1] at *
    exact ih h.2

/-- Membership in a guarded singleton candidate list. -/
theorem mem_guarded {α : Type} {p : α} {cond : Bool} {q : α}
    (h : p ∈ (if cond = true then [q] else [])) :
    cond = true ∧ p = q := by
  split at h
  · rename_i hc
    simp only [List.mem_singleton] at h
    exact ⟨hc, h⟩
  · simp at h

/-- Characters between two digit characters are digits. -/
theorem digit_between {c lo hi : Char} (hlo : isDigitChar lo = true)
    (hhi : isDigitChar hi = true) (h1 : lo ≤ c) (h2 : c ≤ hi) :
    isDigitChar c = true := by
  simp only [isDigitChar, Bool.and_eq_true, decide_eq_true_eq] at *
  exact ⟨le_trans hlo.1 h1, le_trans h2 hhi.2⟩

/-- A month-field candidate consumes a nonempty digit-only prefix. -/
theorem mCands_decomp {s r : Str} {v : Nat} (h : (v, r) ∈ mCands s) :
    ∃ pre, s = pre ++ r ∧ pre ≠ [] ∧ pre.all isDigitChar = true := by
  unfold mCands at h
  rcases s with _ | ⟨c1, _ | ⟨c2, s2⟩⟩
  · simp at h
  · dsimp only at h
    simp only [List.mem_append, List.not_mem_nil, false_or] at h
    obtain ⟨hc, hp⟩ := mem_guarded h
    simp only [Bool.and_eq_true, decide_eq_true_eq] at hc
    obtain ⟨rfl, rfl⟩ := Prod.mk.injEq .. ▸ hp
    exact ⟨[c1], by simp, by simp,
      by simp [digit_between (by decide) (by decide) hc.1 hc.2]⟩
  · dsimp only at h
    simp only [List.mem_append] at h
    rcases h with (h | h) | h
    · obtain ⟨hc, hp⟩ := mem_guarded h
      simp only [Bool.and_eq_true, decide_eq_true_eq] at hc
      obtain ⟨rfl, rfl⟩ := Prod.mk.injEq .. ▸ hp
      refine ⟨[c1, c2], by simp, by simp, ?_⟩
      simp [hc.1.1, digit_between (by decide) (by decide) hc.1.2 hc.2] <;>
        decide
    · obtain ⟨hc, hp⟩ := mem_guarded h
      simp only [Bool.and_eq_true, decide_eq_true_eq] at hc
      obtain ⟨rfl, rfl⟩ := Prod.mk.injEq .. ▸ hp
      refine ⟨[c1, c2], by simp, by simp, ?_⟩
      simp [hc.1.1, digit_between (by decide) (by decide) hc.1.2 hc.2] <;>
        decide
    · obtain ⟨hc, hp⟩ := mem_guarded h
      simp only [Bool.and_eq_true, decide_eq_true_eq] at hc
      obtain ⟨rfl, rfl⟩ := Prod.mk.injEq .. ▸ hp
      exact ⟨[c1], by simp, by simp,
        by simp [digit_between (by decide) (by decide) hc.1 hc.2]⟩

/-- A day-field candidate consumes a nonempty digit-only prefix. -/
theorem dCands_decomp {s r : Str} {v : Nat} (h : (v, r) ∈ dCands s) :
    ∃ pre, s = pre ++ r ∧ pre ≠ [] ∧ pre.all isDigitChar = true := by
  unfold dCands at h
  rcases s with _ | ⟨c1, _ | ⟨c2, s2⟩⟩
  · simp at h
  · dsimp only at h
    simp only [List.mem_append, List.not_mem_nil, false_or] at h
    obtain ⟨hc, hp⟩ := mem_guarded h
    simp only [Bool.and_eq_true, decide_eq_true_eq] at hc
    obtain ⟨rfl, rfl⟩ := Prod.mk.injEq .. ▸ hp
    exact ⟨[c1], by simp, by simp,
      by simp [digit_between (by decide) (by decide) hc.1 hc.2]⟩
  · dsimp only at h
    simp only [List.mem_append] at h
    rcases h with ((h | h) | h) | h
    · obtain ⟨hc, hp⟩ := mem_guarded h
      simp only [Bool.and_eq_true, Bool.or_eq_true, decide_eq_true_eq] at hc
      obtain ⟨rfl, rfl⟩ := Prod.mk.injEq .. ▸ hp
      refine ⟨[c1, c2], by simp, by simp, ?_⟩
      have h2 : isDigitChar c2 = true := by
        rcases hc.2 with rfl | rfl <;> decide
      simp [hc.1, h2] <;> decide
    · obtain ⟨hc, hp⟩ := mem_guarded h
      simp only [Bool.and_eq_true, Bool.or_eq_true, decide_eq_true_eq] at hc
      obtain ⟨rfl, rfl⟩ := Prod.mk.injEq .. ▸ hp
      refine ⟨[c1, c2], by simp, by simp, ?_⟩
      have h1d : isDigitChar c1 = true := by
        rcases hc.1 with rfl | rfl <;> decide
      simp [h1d, hc.2] <;> decide
    · obtain ⟨hc, hp⟩ := mem_guarded h
      simp only [Bool.and_eq_true, decide_eq_true_eq] at hc
      obtain ⟨rfl, rfl⟩ := Prod.mk.injEq .. ▸ hp
      refine ⟨[c1, c2], by simp, by simp, ?_⟩
      simp [hc.1.1, digit_between (by decide) (by decide) hc.1.2 hc.2] <;>
        decide
    · obtain ⟨hc, hp⟩ := mem_guarded h
      simp only [Bool.and_eq_true, decide_eq_true_eq] at hc
      obtain ⟨rfl, rfl⟩ := Prod.mk.injEq .. ▸ hp
      exact ⟨[c1], by simp, by simp,
        by simp [digit_between (by decide) (by decide) hc.1 hc.2]⟩

/-- A year-field candidate consumes a nonempty digit-only prefix. -/
theorem yCands_decomp {s r : Str} {v : Int} {four : Bool}
    (h : (v, r) ∈ yCands s four) :
    ∃ pre, s = pre ++ r ∧ pre ≠ [] ∧ pre.all isDigitChar = true := by
  unfold yCands at h
  rcases four with _ | _
  · simp only [Bool.false_eq_true, if_false] at h
    rcases s with _ | ⟨a, _ | ⟨b, s2⟩⟩
    · simp at h
    · simp at h
    · dsimp only at h
      obtain ⟨hc, hp⟩ := mem_guarded h
      simp only [Bool.and_eq_true] at hc
      obtain ⟨rfl, rfl⟩ := Prod.mk.injEq .. ▸ hp
      exact ⟨[a, b], by simp, by simp, by simp [hc.1, hc.2]⟩
  · simp only [if_true] at h
    rcases s with _ | ⟨a, _ | ⟨b, _ | ⟨c, _ | ⟨d, s2⟩⟩⟩⟩
    · simp at h
    · simp at h
    · simp at h
    · simp at h
    · dsimp only at h
      obtain ⟨hc, hp⟩ := mem_guarded h
      simp only [Bool.and_eq_true] at hc
      obtain ⟨rfl, rfl⟩ := Prod.mk.injEq .. ▸ hp
      exact ⟨[a, b, c, d], by simp, by simp,
        by simp [hc.1.1.1, hc.1.1.2, hc.1.2, hc.2]⟩

/-- A successful `expectSep` means the string starts with the
separator. -/
theorem expectSep_some {sep : Char} {s r : Str}
    (h : expectSep sep s = some r) : s = sep :: r := by
  cases s with
  | nil => simp [expectSep] at h
  | cons c s' =>
    simp only [expectSep] at h
    split at h
    · rename_i hc
      simp only [Option.some.injEq] at h
      rw [hc, h]
    · simp at h


/-- A successful `strptime` parse of one of the eight formats implies
the raw token contains exactly two separators. -/
theorem strptimeFmt_seps {raw : Str} {sep : Char} {mf fy : Bool}
    {d : PyDate} (hsep : sep = '/' ∨ sep = '-')
    (h : strptimeFmt raw sep mf fy = some d) : countSeps raw = 2 := by
  simp only [strptimeFmt] at h
  obtain ⟨c1, hc1, h1⟩ := tryEach_some h
  obtain ⟨r1, hr1, h2⟩ := Option.bind_eq_some.mp h1
  obtain ⟨c2, hc2, h3⟩ := tryEach_some h2
  obtain ⟨r2, hr2, h4⟩ := Option.bind_eq_some.mp h3
  obtain ⟨cy, hcy, h5⟩ := tryEach_some h4
  have hnil : cy.2 = [] := by
    by_contra hne
    rw [if_neg hne] at h5
    exact Option.noConfusion h5
  have hdec1 : ∃ pre, raw = pre ++ c1.2 ∧ pre ≠ [] ∧
      pre.all isDigitChar = true := by
    rcases mf with _ | _
    · exact dCands_decomp (by simpa using hc1)
    · exact mCands_decomp (by simpa using hc1)
  have hdec2 : ∃ pre, r1 = pre ++ c2.2 ∧ pre ≠ [] ∧
      pre.all isDigitChar = true := by
    rcases mf with _ | _
    · exact mCands_decomp (by simpa using hc2)
    · exact dCands_decomp (by simpa using hc2)
  obtain ⟨pre1, he1, hne1, hdg1⟩ := hdec1
  obtain ⟨pre2, he2, hne2, hdg2⟩ := hdec2
  obtain ⟨pre3, he3, hne3, hdg3⟩ := yCands_decomp hcy
  have hs1 := expectSep_some hr1
  have hs2 := expectSep_some hr2
  have hsep' : (sep = '/' || sep = '-') = true := by
    rcases hsep with rfl | rfl <;> decide
  have z1 := countSeps_digits hdg1
  have z2 := countSeps_digits hdg2
  have z3 := countSeps_digits hdg3
  simp only [countSeps] at z1 z2 z3 ⊢
  rw [he1, hs1, he2, hs2, he3, hnil]
  simp [List.countP_append, List.countP_cons, hsep', z1, z2, z3]

/-- When the raw token holds a single separator, every `strptime`
format fails and the loop returns the token itself. -/
theorem tryFormats_single_sep {raw : Str} (h : countSeps raw = 1) :
    tryFormats raw = .raw raw := by
  have hn : ∀ (sep : Char) (mf fy : Bool), sep = '/' ∨ sep = '-' →
      strptimeFmt raw sep mf fy = none := by
    intro sep mf fy hsep
    rcases hf : strptimeFmt raw sep mf fy with _ | d
    · rfl
    · exact absurd (strptimeFmt_seps hsep hf) (by omega)
  unfold tryFormats strptimeFormats
  simp only [List.foldl_cons, List.foldl_nil,
    hn '-' true true (Or.inr rfl), hn '-' true false (Or.inr rfl),
    hn '-' false true (Or.inr rfl), hn '-' false false (Or.inr rfl),
    hn '/' true true (Or.inl rfl), hn '/' true false (Or.inl rfl),
    hn '/' false true (Or.inl rfl), hn '/' false false (Or.inl rfl)]

/-- The day/month assignment of the Date Resolver for a two-part
token, as `(month, day)`: the larger-than-12 part is the day when
exactly one part exceeds 12, otherwise the ordering preference decides
(month-first default). -/
def resolveMD (a b : Int) (ord : Option Str) : Int × Int :=
  if a > 12 && b ≤ 12 then (b, a)
  else if b > 12 && a ≤ 12 then (a, b)
  else if ord = some "DM".data then (b, a)
  else (a, b)

/-- Claim C8: for every date token with exactly two numeric parts and
an available inferred year, `parse_date` assigns the part greater than
12 as the day when the other is at most 12 regardless of the ordering
preference, otherwise follows the ordering preference (month-first by
default), and returns the original token whenever the resulting date
is invalid (including the vacuous year 0, which Python truthiness
routes through the format loop — provably also returning the raw
token). -/
theorem parse_date_two_numeric_parts (raw : Str) (y : Int)
    (ord : Option Str) (p1 p2 : Str) (a b : Int)
    (hsplit : splitSeps raw = [p1, p2])
    (ha : pyIntOfStr p1 = some a) (hb : pyIntOfStr p2 = some b) :
    parse_date raw (some y) ord =
      match mkPyDate y (resolveMD a b ord).1 (resolveMD a b ord).2 with
      | some dt => DateVal.d dt
      | none => DateVal.raw raw := by
  by_cases hy : y = 0
  · subst hy
    have hc : countSeps raw = 1 := by
      have hl := splitSeps_length raw
      rw [hsplit] at hl
      simpa using hl.symm
    have ht := tryFormats_single_sep hc
    have hmk : mkPyDate 0 (resolveMD a b ord).1 (resolveMD a b ord).2 =
        none := by
      unfold mkPyDate
      simp
    rw [hmk]
    simp [parse_date, hsplit, ht]
  · simp [parse_date, hsplit, ha, hb, hy, resolveMD]

/-- Witness for C8: the two specification examples, via the theorem:
`13-05` with year 2025 resolves to 2025-05-13 under the default
ordering, and `05-06` with `DM` ordering resolves to 2025-06-05. -/
theorem parse_date_two_numeric_parts_witness :
    parse_date "13-05".data (some 2025) none =
      .d ⟨2025, 5, 13⟩ ∧
    parse_date "05-06".data (some 2025) (some "DM".data) =
      .d ⟨2025, 6, 5⟩ :=
  ⟨(parse_date_two_numeric_parts "13-05".data 2025 none "13".data
      "05".data 13 5 (by decide) (by decide) (by decide)).trans
      (by decide),
   (parse_date_two_numeric_parts "05-06".data 2025 (some "DM".data)
      "05".data "06".data 5 6 (by decide) (by decide) (by decide)).trans
      (by decide)⟩

end PdfParser

namespace PdfParser

/-- Claim C10: in the 2-trailing-token case, when both tokens
normalize, the reference-number reclassification does not fire, the
second magnitude is strictly smaller than the first, and the second
token has no comma the first lacks, the first token becomes the amount
and the second token is silently discarded: the returned Transaction
has the first value as amount, no balance, the description of the
non-trailing tokens only, and debit/credit derived from the first
value alone — the second token survives only inside `raw_line`. -/
theorem two_trailing_smaller_second_discarded
    (line : Str) (y : Option Int) (an anum aty ord : Option Str)
    (mEnd : Nat) (caps : Caps) (g1 g2 : Nat)
    (t0 t1 : Str) (rem : List Str) (a1 a2 : ℚ)
    (hm : reMatch DATE_START_RX line = some (mEnd, caps))
    (hg : capGet caps 1 = some (g1, g2))
    (htr : peelRev 0 (pySplitWs (pyStrip (line.drop mEnd))).reverse =
      ([t0, t1], rem))
    (hd0 : pyStrip (joinSpace rem) ≠ [])
    (hd1 : pyStrip (joinSpace rem) ≠ "Beginning Balance".data)
    (hd2 : pyStrip (joinSpace rem) ≠ "Ending Balance".data)
    (hlr : ((pyIsDigit t0 && t0.length ≥ 5 && !t0.contains '.') &&
      looksMoney t1) = false)
    (hn0 : normalize_number t0 = some a1)
    (hn1 : normalize_number t1 = some a2)
    (hmag : |a2| < |a1|)
    (hcm : (t1.contains ',' && !t0.contains ',') = false) :
    parse_line line y an anum aty ord = some
      { date := parse_date (sliceCL line g1 g2) y ord,
        date_raw := sliceCL line g1 g2,
        description := pyStrip (joinSpace rem),
        amount := some a1,
        debit := if a1 < 0 then some (-a1) else none,
        credit := if a1 < 0 then none
                  else if a1 > 0 then some a1 else none,
        balance := none,
        account_name := an, account_number := anum,
        account_type := aty,
        line_type := "transaction".data, raw_line := line } := by
  have htok : pySplitWs (pyStrip (line.drop mEnd)) ≠ [] := by
    intro h
    rw [h] at htr
    simp [peelRev] at htr
  have hnotge : ¬ (|a2| ≥ |a1|) := not_le.mpr hmag
  have hlrP : ¬ (((pyIsDigit t0 = true ∧ 5 ≤ t0.length) ∧ '.' ∉ t0) ∧
      looksMoney t1 = true) := by
    intro hP
    obtain ⟨⟨⟨h1, h2⟩, h3⟩, h4⟩ := hP
    simp [h1, h2, h3, h4] at hlr
  have hcmP : ¬ (',' ∈ t1 ∧ ',' ∉ t0) := by
    intro hP
    simp [hP.1, hP.2] at hcm
  unfold parse_line
  rw [hm]
  simp only [hg, htok, htr, adjustRef3, interpretTrailing]
  simp [hd0, hd1, hd2, hlrP, hcmP, hnotge, hn0, hn1]
  constructor <;>
    · by_cases h1 : a1 < 0
      · simp [h1]
      · by_cases h2 : 0 < a1 <;> simp [h1, h2]

/-- Witness for C10: the line `1-1 a 5.00 2.00` peels the two trailing
tokens `5.00` and `2.00`; the smaller second token is discarded — the
record carries amount 5, no balance, and description `a`. -/
theorem two_trailing_smaller_second_discarded_witness :
    parse_line "1-1 a 5.00 2.00".data none none none none none = some
      { date := .raw "1-1".data, date_raw := "1-1".data,
        description := "a".data, amount := some 5, debit := none,
        credit := some 5, balance := none, account_name := none,
        account_number := none, account_type := none,
        line_type := "transaction".data,
        raw_line := "1-1 a 5.00 2.00".data } :=
  (two_trailing_smaller_second_discarded "1-1 a 5.00 2.00".data none
    none none none none 3 [(1, 0, 3)] 0 3 "5.00".data "2.00".data
    ["a".data] 5 2
    (by with_unfolding_all decide) (by with_unfolding_all decide)
    (by with_unfolding_all decide) (by with_unfolding_all decide)
    (by with_unfolding_all decide) (by with_unfolding_all decide)
    (by with_unfolding_all decide) (by with_unfolding_all decide)
    (by with_unfolding_all decide) (by with_unfolding_all decide)
    (by with_unfolding_all decide)).trans (by with_unfolding_all decide)

/-- A parsed line carries exactly the account fields it was called
with. -/
theorem parse_line_accounts {line : Str} {y : Option Int}
    {an anum aty ord : Option Str} {rec : Row}
    (h : parse_line line y an anum aty ord = some rec) :
    rec.account_name = an ∧ rec.account_number = anum ∧
    rec.account_type = aty := by
  unfold parse_line at h
  rcases hm : reMatch DATE_START_RX line with _ | ⟨mEnd, caps⟩ <;>
    rw [hm] at h
  · exact absurd h (by simp)
  · dsimp only at h
    repeat' split at h
    all_goals
      first
        | exact Option.noConfusion h
        | (rw [← Option.some.inj h]
           exact ⟨rfl, rfl, rfl⟩)

/-- Claim C9: when a raw line contains an account header (anchored or
inline) and the same line also parses as a transaction, the document
pass emits that transaction stamped with the account name, number and
type taken from the header of the line itself — for every previously
active context, since the context is updated before the line reaches
the line parser. -/
theorem header_line_stamps_own_context
    (y : Option Int) (ctx : AcctCtx) (pg : Nat) (line : Str)
    (rest : List (Nat × Str)) (nm num : Str) (rec : Row)
    (hh : headerOfLine line = some (nm, num))
    (hp : parse_line line y (some nm) (some num)
      (classify_account (some nm)) none = some rec) :
    (docPass y ctx ((pg, line) :: rest)).1 =
      rec :: (docPass y (some nm, some num,
        classify_account (some nm)) rest).1 ∧
    rec.account_name = some nm ∧ rec.account_number = some num ∧
    rec.account_type = classify_account (some nm) := by
  have hacc := parse_line_accounts hp
  refine ⟨?_, hacc.1, hacc.2.1, hacc.2.2⟩
  conv_lhs => rw [docPass]
  simp only [hh, hp]

/-- The witness line for C9: a transaction line carrying its own
inline account header. -/
def c9Line : Str := "1-1 Sav Acct - 1234567 10.00 50.00".data

/-- The record the C9 witness line parses into. -/
def c9Rec : Row :=
  { date := .raw "1-1".data, date_raw := "1-1".data,
    description := "Sav Acct - 1234567".data, amount := some 10,
    debit := none, credit := some 10, balance := some 50,
    account_name := some "Sav Acct".data,
    account_number := some "1234567".data, account_type := none,
    line_type := "transaction".data, raw_line := c9Line }

/-- Witness for C9: with a stale previous context, the emitted row is
stamped from the header of the line itself. -/
theorem header_line_stamps_own_context_witness :
    (docPass none (some "Old".data, some "000000".data,
      some "savings".data) [(1, c9Line)]).1 =
      c9Rec :: (docPass none (some "Sav Acct".data,
        some "1234567".data,
        classify_account (some "Sav Acct".data)) []).1 ∧
    c9Rec.account_name = some "Sav Acct".data ∧
    c9Rec.account_number = some "1234567".data ∧
    c9Rec.account_type = classify_account (some "Sav Acct".data) :=
  header_line_stamps_own_context none
    (some "Old".data, some "000000".data, some "savings".data) 1
    c9Line [] "Sav Acct".data "1234567".data c9Rec
    (by with_unfolding_all decide) (by with_unfolding_all decide)

end PdfParser

namespace PdfParser

/-! ## Lemmas for the Balance Reconciler claim (C4) -/

/-- `getLast?` of a cons, expressed by cases on the tail. -/
theorem getLast?_cons_cases (a : α) (l : List α) :
    (a :: l).getLast? =
      match l.getLast? with
      | some x => some x
      | none => some a := by
  induction l generalizing a with
  | nil => rfl
  | cons b r ih =>
    rw [List.getLast?_cons_cons, ih b]
    rcases hr : r.getLast? with _ | x
    · simp [List.getLast?_eq_none_iff.mp hr]
    · rfl

/-- The seeded running balance before position `i` of a group. -/
def lastBalSeeded (lb0 : Option ℚ) (g : List (Nat × Row)) (i : Nat) :
    Option ℚ :=
  match ((g.take i).filterMap (fun p => p.2.balance)).getLast? with
  | some b => some b
  | none => lb0

/-- The declarative mismatch list of one group with a seeded running
balance. -/
def mismatchesSpecFrom (tol : ℚ) (acct : Option Str) (lb0 : Option ℚ)
    (g : List (Nat × Row)) : List Mismatch :=
  (List.range g.length).filterMap (fun i =>
    match g.get? i with
    | some (idx, r) =>
      match r.amount, r.balance, lastBalSeeded lb0 g i with
      | some a, some b, some lb =>
        if |round2 (lb + a) - round2 b| > tol
        then some (mkMismatch idx acct r a lb b) else none
      | _, _, _ => none
    | none => none)

/-- Unseeded and `none`-seeded running balances agree. -/
theorem lastBalSeeded_none (g : List (Nat × Row)) (i : Nat) :
    lastBalSeeded none g i = lastBalBefore g i := by
  unfold lastBalSeeded lastBalBefore
  rcases h : ((g.take i).filterMap (fun p => p.2.balance)).getLast? with
    _ | b <;> rw [h]

/-- The unseeded declarative mismatch list is the `none`-seeded one. -/
theorem mismatchesSpec_eq_from (tol : ℚ) (acct : Option Str)
    (g : List (Nat × Row)) :
    mismatchesSpec tol acct g = mismatchesSpecFrom tol acct none g := by
  unfold mismatchesSpec mismatchesSpecFrom
  apply List.filterMap_congr
  intro i _
  rw [lastBalSeeded_none]

/-- Cons step of the seeded running balance: position `i + 1` of the
extended group sees the balance-updated seed. -/
theorem lastBalSeeded_cons (lb0 : Option ℚ) (p : Nat × Row)
    (g : List (Nat × Row)) (i : Nat) :
    lastBalSeeded lb0 (p :: g) (i + 1) =
      lastBalSeeded
        (match p.2.balance with
         | some b => some b
         | none => lb0) g i := by
  unfold lastBalSeeded
  rw [List.take_succ_cons, List.filterMap_cons]
  rcases hb : p.2.balance with _ | b
  · rfl
  · rw [getLast?_cons_cases]
    rcases hl : ((g.take i).filterMap (fun q => q.2.balance)).getLast? with
      _ | x <;> rw [hl]

/-- Cons step of the seeded declarative mismatch list. -/
theorem mismatchesSpecFrom_cons (tol : ℚ) (acct : Option Str)
    (lb0 : Option ℚ) (idx : Nat) (r : Row) (g : List (Nat × Row)) :
    mismatchesSpecFrom tol acct lb0 ((idx, r) :: g) =
      (match r.amount, r.balance, lb0 with
       | some a, some b, some lb =>
         if |round2 (lb + a) - round2 b| > tol
         then [mkMismatch idx acct r a lb b] else []
       | _, _, _ => []) ++
      mismatchesSpecFrom tol acct
        (match r.balance with
         | some b => some b
         | none => lb0) g := by
  unfold mismatchesSpecFrom
  rw [List.length_cons, List.range_succ_eq_map, List.filterMap_cons]
  have hseed0 : lastBalSeeded lb0 ((idx, r) :: g) 0 = lb0 := by
    unfold lastBalSeeded
    simp
  have htail : List.filterMap
      (fun i =>
        match ((idx, r) :: g).get? i with
        | some (jdx, q) =>
          match q.amount, q.balance, lastBalSeeded lb0 ((idx, r) :: g) i with
          | some a, some b, some lb =>
            if |round2 (lb + a) - round2 b| > tol
            then some (mkMismatch jdx acct q a lb b) else none
          | _, _, _ => none
        | none => none)
      ((List.range g.length).map Nat.succ) =
      mismatchesSpecFrom tol acct
        (match r.balance with
         | some b => some b
         | none => lb0) g := by
    rw [List.filterMap_map]
    unfold mismatchesSpecFrom
    apply List.filterMap_congr
    intro i _
    simp only [Function.comp]
    rw [show ((idx, r) :: g).get? (Nat.succ i) = g.get? i from rfl,
        show Nat.succ i = i + 1 from rfl, lastBalSeeded_cons]
  rw [htail]
  simp only [List.get?]
  rw [hseed0]
  rcases ha : r.amount with _ | a <;> rcases hb2 : r.balance with _ | b <;>
    rcases lb0 with _ | lb <;>
      simp only [ha, hb2] <;>
        first
          | rfl
          | (by_cases hC : |round2 (lb + a) - round2 b| > tol
             · simp only [if_pos hC]
               rfl
             · simp only [if_neg hC]
               rfl)

/-- The defining cons equation of the per-group loop. -/
theorem processGroup_cons (tol : ℚ) (acct : Option Str)
    (lastB : Option ℚ) (idx : Nat) (r : Row)
    (rest : List (Nat × Row)) :
    processGroup tol acct lastB ((idx, r) :: rest) =
      if r.line_type = "marker".data then
        processGroup tol acct
          (match r.balance with
           | some b => some b
           | none => lastB) rest
      else
        (match r.amount, r.balance, lastB with
         | some a, some b, some lb =>
           if |round2 (lb + a) - round2 b| > tol
           then [mkMismatch idx acct r a lb b] else []
         | _, _, _ => []) ++
        processGroup tol acct
          (match r.balance with
           | some b => some b
           | none => lastB) rest := rfl

/-- The per-group loop computes exactly the seeded declarative
mismatch list, for groups without marker rows. -/
theorem processGroup_eq_specFrom (tol : ℚ) (acct : Option Str)
    (lb0 : Option ℚ) (g : List (Nat × Row))
    (h : ∀ p ∈ g, p.2.line_type ≠ "marker".data) :
    processGroup tol acct lb0 g = mismatchesSpecFrom tol acct lb0 g := by
  induction g generalizing lb0 with
  | nil => rfl
  | cons p g ih =>
    obtain ⟨idx, r⟩ := p
    have hm : ¬ (r.line_type = "marker".data) := h (idx, r) (by simp)
    rw [processGroup_cons, if_neg hm, ih _ (fun q hq => h q (by simp [hq])),
        mismatchesSpecFrom_cons]

end PdfParser

namespace PdfParser

/-- Membership after a stable insertion. -/
theorem mem_insertByLe {le : α → α → Bool} {x y : α} {l : List α}
    (h : x ∈ insertByLe le y l) : x = y ∨ x ∈ l := by
  induction l with
  | nil => simpa [insertByLe] using h
  | cons a r ih =>
    unfold insertByLe at h
    by_cases hle : le y a
    · rw [if_pos hle] at h
      simpa using h
    · rw [if_neg hle] at h
      simp only [List.mem_cons] at h
      rcases h with h | h
      · exact Or.inr (by simp [h])
      · rcases ih h with h' | h'
        · exact Or.inl h'
        · exact Or.inr (by simp [h'])

/-- Membership after the stable insertion sort. -/
theorem mem_sortByLe {le : α → α → Bool} {x : α} {l : List α}
    (h : x ∈ sortByLe le l) : x ∈ l := by
  induction l with
  | nil => simpa [sortByLe] using h
  | cons a r ih =>
    unfold sortByLe at h ih
    rcases mem_insertByLe h with h' | h'
    · simp [h']
    · simp [ih h']

/-- The defining cons equation of the consecutive-account grouping. -/
theorem groupConsecAcct_cons (q : Nat × Row) (r : List (Nat × Row)) :
    groupConsecAcct (q :: r) =
      match groupConsecAcct r with
      | [] => [[q]]
      | [] :: gs => [q] :: [] :: gs
      | (q0 :: g0) :: gs =>
        if q.2.account_number = q0.2.account_number
        then (q :: q0 :: g0) :: gs
        else [q] :: (q0 :: g0) :: gs := rfl

/-- Every element of a consecutive-account group belongs to the
underlying list. -/
theorem mem_groupConsecAcct {l : List (Nat × Row)}
    {g : List (Nat × Row)} {p : Nat × Row}
    (hg : g ∈ groupConsecAcct l) (hp : p ∈ g) : p ∈ l := by
  induction l generalizing g with
  | nil => simp [groupConsecAcct] at hg
  | cons q r ih =>
    rw [groupConsecAcct_cons] at hg
    rcases hr : groupConsecAcct r with _ | ⟨g0, gs⟩ <;> rw [hr] at hg
    · simp only [List.mem_singleton] at hg
      subst hg
      simp only [List.mem_singleton] at hp
      simp [hp]
    · rcases g0 with _ | ⟨q0, g0t⟩
      · dsimp only at hg
        simp only [List.mem_cons] at hg
        rcases hg with hg | hg | hg
        · subst hg
          simp only [List.mem_singleton] at hp
          simp [hp]
        · subst hg
          simp at hp
        · exact List.mem_cons_of_mem q
            (ih (by rw [hr]; exact List.mem_cons_of_mem _ hg) hp)
      · dsimp only at hg
        by_cases hacc : q.2.account_number = q0.2.account_number
        · rw [if_pos hacc] at hg
          simp only [List.mem_cons] at hg
          rcases hg with hg | hg
          · subst hg
            simp only [List.mem_cons] at hp
            rcases hp with hp | hp
            · simp [hp]
            · refine List.mem_cons_of_mem q
                (ih ?_ (List.mem_cons.mpr hp))
              rw [hr]
              exact List.mem_cons_self _ _
          · exact List.mem_cons_of_mem q
              (ih (by rw [hr]; exact List.mem_cons_of_mem _ hg) hp)
        · rw [if_neg hacc] at hg
          simp only [List.mem_cons] at hg
          rcases hg with hg | hg | hg
          · subst hg
            simp only [List.mem_singleton] at hp
            simp [hp]
          · subst hg
            exact List.mem_cons_of_mem q
              (ih (by rw [hr]; exact List.mem_cons_self _ _) hp)
          · exact List.mem_cons_of_mem q
              (ih (by rw [hr]; exact List.mem_cons_of_mem _ hg) hp)

/-- The second component of an `enumFrom` element belongs to the
list. -/
theorem mem_enumFrom_snd {l : List α} {n : Nat} {p : Nat × α}
    (h : p ∈ l.enumFrom n) : p.2 ∈ l := by
  induction l generalizing n with
  | nil => simp [List.enumFrom] at h
  | cons a r ih =>
    simp only [List.enumFrom, List.mem_cons] at h
    rcases h with h | h
    · simp [h]
    · simp [ih h]

/-- Congruence for `flatMap`. -/
theorem flatMap_congr_fun {l : List α} {f g : α → List β}
    (h : ∀ a ∈ l, f a = g a) : l.flatMap f = l.flatMap g := by
  induction l with
  | nil => rfl
  | cons a r ih =>
    simp only [List.flatMap_cons, h a (by simp)]
    rw [ih (fun b hb => h b (by simp [hb]))]

/-- Claim C4: `compute_balance_mismatches`, on a table of transaction
rows (no reserved marker rows), equals the declarative
specification: the rows are sorted in `(account_number, date_raw)`
order and grouped by account, and within each group a row emits a
Mismatch exactly when its amount and balance are present, some
earlier row of the group carried a balance (so the first
balance-carrying row never emits), and
`|round(last_balance + amount, 2) − round(balance, 2)|` exceeds the
tolerance, while the running balance is updated by every
balance-carrying row regardless of mismatch. -/
theorem compute_balance_mismatches_spec (df : List Row) (tol : ℚ)
    (h : ∀ r ∈ df, r.line_type ≠ "marker".data) :
    compute_balance_mismatches df tol =
      (groupConsecAcct (sortByLe reconLe df.enum)).flatMap
        (fun g => mismatchesSpec tol (groupAcct g) g) := by
  rcases hdf : df with _ | ⟨r0, df'⟩
  · rfl
  · rw [← hdf]
    have hdf' : df ≠ [] := by rw [hdf]; simp
    unfold compute_balance_mismatches
    rw [if_neg hdf']
    apply flatMap_congr_fun
    intro g hg
    rw [mismatchesSpec_eq_from]
    apply processGroup_eq_specFrom
    intro p hp
    have hmem : p ∈ df.enum :=
      mem_sortByLe (mem_groupConsecAcct hg hp)
    exact h p.2 (mem_enumFrom_snd hmem)

/-- The C4 witness rows: a seed row carrying only a balance of 100,
then a row with amount 10 and provided balance 109. -/
def c4Df : List Row :=
  [exRow "01" none (some 100), exRow "02" (some 10) (some 109)]

/-- Witness for C4: the characterization applied at the concrete
rows, whose evaluation yields exactly one Mismatch with expected 110,
provided 109 and delta −1 — and no mismatch for the seed row. -/
theorem compute_balance_mismatches_spec_witness :
    compute_balance_mismatches c4Df (1 / 100) =
      (groupConsecAcct (sortByLe reconLe c4Df.enum)).flatMap
        (fun g => mismatchesSpec (1 / 100) (groupAcct g) g) ∧
    compute_balance_mismatches c4Df (1 / 100) =
      [{ index := 1, account_number := some "1".data,
         date := .raw "02".data, description := "x".data, amount := 10,
         prev_balance := 100, expected_balance := 110,
         provided_balance := 109, delta := -1 }] :=
  ⟨compute_balance_mismatches_spec c4Df (1 / 100)
     (by with_unfolding_all decide),
   by with_unfolding_all decide⟩

end PdfParser

namespace PdfParser

/-! ## Lemmas for the Year Inferencer claim (C3) -/

/-- Membership in a descending-count insertion, both directions. -/
theorem mem_insDescByCount_iff {x p : Int × Nat}
    {l : List (Int × Nat)} :
    p ∈ insDescByCount x l ↔ p = x ∨ p ∈ l := by
  induction l with
  | nil => simp [insDescByCount]
  | cons y r ih =>
    unfold insDescByCount
    by_cases hc : y.2 > x.2
    · rw [if_pos hc]
      simp only [List.mem_cons, ih]
      tauto
    · rw [if_neg hc]
      simp only [List.mem_cons, ih]

/-- Membership in the descending-count sort, both directions. -/
theorem mem_sortDescByCount_iff {p : Int × Nat}
    {l : List (Int × Nat)} :
    p ∈ sortDescByCount l ↔ p ∈ l := by
  induction l with
  | nil => simp [sortDescByCount]
  | cons y r ih =>
    unfold sortDescByCount at ih ⊢
    rw [List.foldr_cons, mem_insDescByCount_iff, ih]
    exact List.mem_cons.symm

/-- The descending-count insertion preserves descending order. -/
theorem sorted_insDescByCount {x : Int × Nat} {l : List (Int × Nat)}
    (h : List.Sorted (fun p q : Int × Nat => q.2 ≤ p.2) l) :
    List.Sorted (fun p q : Int × Nat => q.2 ≤ p.2)
      (insDescByCount x l) := by
  induction l with
  | nil => simp [insDescByCount]
  | cons y r ih =>
    rw [List.sorted_cons] at h
    unfold insDescByCount
    by_cases hc : y.2 > x.2
    · rw [if_pos hc]
      rw [List.sorted_cons]
      refine ⟨?_, ih h.2⟩
      intro b hb
      rcases mem_insDescByCount_iff.mp hb with hb | hb
      · subst hb
        omega
      · exact h.1 b hb
    · rw [if_neg hc]
      rw [List.sorted_cons]
      refine ⟨?_, by rw [List.sorted_cons]; exact h⟩
      intro b hb
      simp only [List.mem_cons] at hb
      rcases hb with hb | hb
      · subst hb
        omega
      · have := h.1 b hb
        omega

/-- The descending-count sort is sorted. -/
theorem sorted_sortDescByCount (l : List (Int × Nat)) :
    List.Sorted (fun p q : Int × Nat => q.2 ≤ p.2)
      (sortDescByCount l) := by
  induction l with
  | nil => simp [sortDescByCount]
  | cons y r ih =>
    unfold sortDescByCount at ih ⊢
    exact sorted_insDescByCount ih

/-- When one key holds the strictly largest count, it heads the
descending-count sort. -/
theorem sortDescByCount_head {l : List (Int × Nat)} {y : Int}
    {cy : Nat} (hmem : (y, cy) ∈ l)
    (huniq : ∀ p ∈ l, p.1 = y → p.2 = cy)
    (hmax : ∀ p ∈ l, p.1 ≠ y → p.2 < cy) :
    ∃ tl, sortDescByCount l = (y, cy) :: tl := by
  rcases hs : sortDescByCount l with _ | ⟨hd, tl⟩
  · exfalso
    have := mem_sortDescByCount_iff.mpr hmem
    rw [hs] at this
    simp at this
  · have hhd : hd ∈ l := mem_sortDescByCount_iff.mp (by rw [hs]; simp)
    have hyc : (y, cy) ∈ sortDescByCount l :=
      mem_sortDescByCount_iff.mpr hmem
    rw [hs] at hyc
    have hsorted := sorted_sortDescByCount l
    rw [hs, List.sorted_cons] at hsorted
    have hle : cy ≤ hd.2 := by
      rcases List.mem_cons.mp hyc with hyc | hyc
      · rw [← hyc]
      · exact hsorted.1 (y, cy) hyc
    by_cases h1 : hd.1 = y
    · have h2 := huniq hd hhd h1
      have hhdy : hd = (y, cy) := by
        rcases hd with ⟨a, b⟩
        simp only at h1 h2
        rw [h1, h2]
      refine ⟨tl, ?_⟩
      rw [hhdy]
    · exact absurd hle (by have := hmax hd hhd h1; omega)

/-- The claim C3 counterexample document, as normalized lines: two
statement-period ranges placing 2024 in the majority within the
period matches, while 2025 dominates the whole document. -/
def c3Lines : List Str :=
  ["1/1/24 - 2/2/24", "3/3/24 - 4/4/25", "5/5/25", "6/6/25",
   "7/7/25"].map (·.data)

/-- Counterexample for C3: the document has exactly the two
consecutive distinct years 2024 and 2025 and at least one
statement-period match, 2024 occurs strictly more often than 2025
within the statement-period matches — the claim therefore demands
2024 — yet `infer_year` returns 2025, because the code ranks the
period years by their frequency in the whole document. -/
theorem infer_year_tiebreak_counterexample :
    firstOccs (c3Lines.flatMap lineYears) = [2024, 2025] ∧
    c3Lines.flatMap linePeriodYears ≠ [] ∧
    (c3Lines.flatMap linePeriodYears).count 2024 >
      (c3Lines.flatMap linePeriodYears).count 2025 ∧
    (c3Lines.flatMap lineYears).count 2025 >
      (c3Lines.flatMap lineYears).count 2024 ∧
    infer_year c3Lines = some 2025 := by
  refine ⟨by decide, by decide, by decide, by decide, by decide⟩

end PdfParser

namespace PdfParser

/-- Claim C3 (amended): for a document with exactly two distinct,
consecutive years and at least one statement-period match, `infer_year`
returns, among the years that appear in statement-period matches, the
one that occurs most often ACROSS THE WHOLE DOCUMENT (not within the
period matches themselves); stated here for the case of a strict
maximum, where the result does not depend on tie order. -/
theorem infer_year_tiebreak_amended (lines : List Str) (u v y : Int)
    (hkeys : firstOccs (lines.flatMap lineYears) = [u, v])
    (hcons : u - v = 1 ∨ v - u = 1)
    (hper : lines.flatMap linePeriodYears ≠ [])
    (hyin : y ∈ firstOccs (lines.flatMap linePeriodYears))
    (hycnt : (lines.flatMap lineYears).contains y = true)
    (hmax : ∀ z ∈ firstOccs (lines.flatMap linePeriodYears),
      (lines.flatMap lineYears).contains z = true → z ≠ y →
      (lines.flatMap lineYears).count z <
        (lines.flatMap lineYears).count y) :
    infer_year lines = some y := by
  have hyne : lines.flatMap lineYears ≠ [] := by
    intro h0
    rw [h0] at hkeys
    simp [firstOccs, firstOccsAux] at hkeys
  have hmem : (y, (lines.flatMap lineYears).count y) ∈
      ((firstOccs (lines.flatMap linePeriodYears)).filter
        (fun z => (lines.flatMap lineYears).contains z)).map
        (fun z => (z, (lines.flatMap lineYears).count z)) :=
    List.mem_map_of_mem _ (List.mem_filter.mpr ⟨hyin, hycnt⟩)
  have huniq : ∀ p ∈ ((firstOccs (lines.flatMap linePeriodYears)).filter
      (fun z => (lines.flatMap lineYears).contains z)).map
      (fun z => (z, (lines.flatMap lineYears).count z)),
      p.1 = y → p.2 = (lines.flatMap lineYears).count y := by
    intro p hp h1
    obtain ⟨z, hz, rfl⟩ := List.mem_map.mp hp
    simp only at h1 ⊢
    rw [h1]
  have hmax' : ∀ p ∈ ((firstOccs (lines.flatMap linePeriodYears)).filter
      (fun z => (lines.flatMap lineYears).contains z)).map
      (fun z => (z, (lines.flatMap lineYears).count z)),
      p.1 ≠ y → p.2 < (lines.flatMap lineYears).count y := by
    intro p hp h1
    obtain ⟨z, hz, rfl⟩ := List.mem_map.mp hp
    obtain ⟨hz1, hz2⟩ := List.mem_filter.mp hz
    exact hmax z hz1 hz2 (by simpa using h1)
  obtain ⟨tl, hsort⟩ := sortDescByCount_head hmem huniq hmax'
  have hcond : ((decide (u - v = 1) || decide (v - u = 1)) &&
      !(lines.flatMap linePeriodYears).isEmpty) = true := by
    rcases hcons with h | h <;> simp [h, hper]
  simp only [infer_year]
  rw [if_neg hyne]
  simp only [hkeys]
  rw [if_pos hcond, hsort]

/-- Witness for C3 (amended): on the counterexample document, 2025
appears in the period matches and has the strictly larger
whole-document count, and `infer_year` returns it. -/
theorem infer_year_tiebreak_amended_witness :
    infer_year c3Lines = some 2025 :=
  infer_year_tiebreak_amended c3Lines 2024 2025 2025 (by decide)
    (Or.inr (by decide)) (by decide) (by decide) (by decide) (by decide)

end PdfParser

namespace PdfParser

/-! ## The final-output invariant (non-empty description, some numeric
field) -/

/-- The head surviving `dropWhile` fails the predicate. -/
theorem dropWhile_head_false {p : Char → Bool} {s r : Str} {c : Char}
    (h : s.dropWhile p = c :: r) : p c = false := by
  induction s with
  | nil => exact absurd h (by simp)
  | cons a t ih =>
    rw [List.dropWhile_cons] at h
    by_cases ha : p a = true
    · rw [if_pos ha] at h
      exact ih h
    · rw [if_neg ha] at h
      injection h with h1 h2
      rw [← h1]
      simpa using ha

/-- A stripped string never starts with whitespace. -/
theorem pyStrip_head_false {s r : Str} {c : Char}
    (h : pyStrip s = c :: r) : isSpaceChar c = false :=
  dropWhile_head_false h

/-- An element failing the predicate survives `dropWhile`. -/
theorem mem_dropWhile_of_not {p : Char → Bool} {x : Char} {l : Str}
    (hx : x ∈ l) (hnp : p x = false) : x ∈ l.dropWhile p := by
  induction l with
  | nil => exact absurd hx (by simp)
  | cons a t ih =>
    rw [List.dropWhile_cons]
    by_cases ha : p a = true
    · rw [if_pos ha]
      rcases List.mem_cons.mp hx with rfl | h
      · exact absurd ha (by simp [hnp])
      · exact ih h
    · rw [if_neg ha]
      exact hx

/-- A non-space character survives the right strip. -/
theorem mem_pyRStrip {x : Char} {s : Str} (hx : x ∈ s)
    (hns : isSpaceChar x = false) : x ∈ pyRStrip s := by
  unfold pyRStrip
  exact List.mem_reverse.mpr
    (mem_dropWhile_of_not (List.mem_reverse.mpr hx) hns)

/-- A string holding a non-space character strips to a non-empty
string. -/
theorem pyStrip_mem_ne_nil {x : Char} {s : Str} (hx : x ∈ s)
    (hns : isSpaceChar x = false) : pyStrip s ≠ [] := by
  unfold pyStrip pyLStrip
  intro h0
  have hall := List.dropWhile_eq_nil_iff.mp h0
  have hx' := hall x (mem_pyRStrip hx hns)
  simp [hns] at hx'

/-- Appending a space-separated token to a non-empty stripped string
and stripping again stays non-empty. -/
theorem pyStrip_extend_ne_nil {s d t : Str} (hs : d = pyStrip s)
    (hne : d ≠ []) : pyStrip (d ++ ' ' :: t) ≠ [] := by
  rcases d with _ | ⟨c, r⟩
  · exact absurd rfl hne
  · have hc : isSpaceChar c = false := pyStrip_head_false hs.symm
    exact pyStrip_mem_ne_nil (by simp) hc

/-- The reference-number adjustment either keeps the description or
strip-appends a token to it. -/
theorem adjustRef3_fst (d : Str) (tr : List Str) :
    (adjustRef3 d tr).1 = d ∨
    ∃ t, (adjustRef3 d tr).1 = pyStrip (d ++ ' ' :: t) := by
  unfold adjustRef3
  split
  · split
    · split
      · exact Or.inr ⟨_, rfl⟩
      · exact Or.inl rfl
    · exact Or.inl rfl
  · exact Or.inl rfl

/-- Every branch of the trailing-token interpreter returns a
description that is the input description or a strip-append of it, so
it stays non-empty when the input is a non-empty stripped string. -/
theorem interpretTrailing_desc {s : Str} (d : Str) (tr : List Str)
    (hne : d ≠ []) (hs : d = pyStrip s) :
    (interpretTrailing d tr).2.2.2.2 ≠ [] := by
  rcases tr with _ | ⟨t0, _ | ⟨t1, _ | ⟨t2, _ | ⟨t3, tr'⟩⟩⟩⟩ <;>
    simp only [interpretTrailing] <;>
    repeat' split
  all_goals
    first
      | exact hne
      | exact pyStrip_extend_ne_nil hs hne

/-- The description after adjustment and interpretation of a non-empty
stripped description is non-empty. -/
theorem descPipeline_ne {s : Str} {tr : List Str}
    (hne : pyStrip s ≠ []) :
    (interpretTrailing (adjustRef3 (pyStrip s) tr).1
      (adjustRef3 (pyStrip s) tr).2).2.2.2.2 ≠ [] := by
  rcases adjustRef3_fst (pyStrip s) tr with h | ⟨t, h⟩
  · rw [h]
    exact interpretTrailing_desc _ _ hne rfl
  · rw [h]
    exact interpretTrailing_desc _ _ (pyStrip_extend_ne_nil rfl hne) rfl

/-- Every row the line parser emits has a non-empty description. -/
theorem parse_line_desc_ne {line : Str} {y : Option Int}
    {an anum aty ord : Option Str} {r : Row}
    (h : parse_line line y an anum aty ord = some r) :
    r.description ≠ [] := by
  unfold parse_line at h
  rcases hm : reMatch DATE_START_RX line with _ | ⟨mEnd, caps⟩ <;>
    rw [hm] at h
  · exact Option.noConfusion h
  · dsimp only at h
    split at h
    · exact Option.noConfusion h
    · split at h
      · exact Option.noConfusion h
      · rename_i hd0
        repeat' split at h
        all_goals
          first
            | exact Option.noConfusion h
            | (rw [← Option.some.inj h]
               exact descPipeline_ne hd0)

/-- The defining cons equation of the document pass, with the updated
context abstracted. -/
theorem docPass_cons (y : Option Int) (ctx ctx' : AcctCtx) (pg : Nat)
    (line : Str) (rest : List (Nat × Str))
    (hctx : ctx' = match headerOfLine line with
      | some h => (some h.1, some h.2, classify_account (some h.1))
      | none => ctx) :
    docPass y ctx ((pg, line) :: rest) =
      match parse_line line y ctx'.1 ctx'.2.1 ctx'.2.2 none with
      | some rec =>
        (rec :: (docPass y ctx' rest).1, (docPass y ctx' rest).2)
      | none =>
        if (reMatch SHORT_DATE_RX line).isSome
        then ((docPass y ctx' rest).1,
              pageTag pg line :: (docPass y ctx' rest).2)
        else docPass y ctx' rest := by
  subst hctx
  rfl

/-- One step of the document pass preserves the description
invariant. -/
theorem docPass_aux (y : Option Int) (C : AcctCtx) (pg : Nat)
    (line : Str) (rest : List (Nat × Str)) (r : Row)
    (hr : r ∈ (match parse_line line y C.1 C.2.1 C.2.2 none with
      | some rec =>
        (rec :: (docPass y C rest).1, (docPass y C rest).2)
      | none =>
        if (reMatch SHORT_DATE_RX line).isSome
        then ((docPass y C rest).1,
              pageTag pg line :: (docPass y C rest).2)
        else docPass y C rest).1)
    (ih : ∀ r' ∈ (docPass y C rest).1, r'.description ≠ []) :
    r.description ≠ [] := by
  rcases hp : parse_line line y C.1 C.2.1 C.2.2 none with _ | rec <;>
    rw [hp] at hr
  · by_cases hsd : (reMatch SHORT_DATE_RX line).isSome = true
    · rw [if_pos hsd] at hr
      exact ih r hr
    · rw [if_neg hsd] at hr
      exact ih r hr
  · rcases List.mem_cons.mp hr with h | h
    · exact h ▸ parse_line_desc_ne hp
    · exact ih r h

/-- Every row the document pass emits has a non-empty description. -/
theorem docPass_desc (y : Option Int) (L : List (Nat × Str)) :
    ∀ (ctx : AcctCtx) (r : Row),
      r ∈ (docPass y ctx L).1 → r.description ≠ [] := by
  induction L with
  | nil =>
    intro ctx r hr
    rw [show (docPass y ctx []).1 = [] from rfl] at hr
    exact absurd hr (List.not_mem_nil r)
  | cons p rest ih =>
    rcases p with ⟨pg, line⟩
    intro ctx r hr
    rw [docPass_cons y ctx _ pg line rest rfl] at hr
    exact docPass_aux y _ pg line rest r hr (fun r' h' => ih _ r' h')

/-- Outlier suppression never touches the description. -/
theorem suppressOutliers_desc {rows : List Row}
    (hall : ∀ r ∈ rows, r.description ≠ []) :
    ∀ r ∈ suppressOutliers rows, r.description ≠ [] := by
  intro r hr
  unfold suppressOutliers at hr
  dsimp only at hr
  split at hr
  · exact hall r hr
  · split at hr
    · split at hr
      · obtain ⟨a, ha, rfl⟩ := List.mem_map.mp hr
        rcases hq : a.amount with _ | q <;> simp only [hq]
        · exact hall a ha
        · split
          · exact hall a ha
          · exact hall a ha
      · exact hall r hr
    · exact hall r hr

/-- Claim C5: every transaction row in the final output of
`parse_bank_statement` has a non-empty description and carries at
least one of amount, debit, credit, balance. -/
theorem final_transactions_invariant (pdf : PdfInput) (r : Row)
    (hr : r ∈ (parse_bank_statement pdf).1) :
    r.description ≠ [] ∧
      (r.amount ≠ none ∨ r.debit ≠ none ∨ r.credit ≠ none ∨
        r.balance ≠ none) := by
  unfold parse_bank_statement at hr
  dsimp only at hr
  split at hr
  · exact absurd hr (List.not_mem_nil r)
  · have hf := List.mem_filter.mp hr
    refine ⟨?_, ?_⟩
    · exact suppressOutliers_desc
        (fun r' h' => docPass_desc _ _ _ r' (mem_sortByLe h')) r hf.1
    · have hp := hf.2
      by_cases h1 : r.amount = none
      · by_cases h2 : r.debit = none
        · by_cases h3 : r.credit = none
          · by_cases h4 : r.balance = none
            · rw [h1, h2, h3, h4] at hp
              simp at hp
            · exact Or.inr (Or.inr (Or.inr h4))
          · exact Or.inr (Or.inr (Or.inl h3))
        · exact Or.inr (Or.inl h2)
      · exact Or.inl h1

/-- The witness document: one page whose raw text is a single
transaction line. -/
def c5Pdf : PdfInput := Except.ok [⟨"1-1 Coffee 2.00".data, []⟩]

/-- The witness document yields at least one transaction. -/
theorem c5_rows_ne_nil : (parse_bank_statement c5Pdf).1 ≠ [] := by
  with_unfolding_all decide

/-- The first output row of the witness document. -/
def c5Row : Row := (parse_bank_statement c5Pdf).1.head c5_rows_ne_nil

/-- Witness for C5: the invariant holds of the first row produced from
the witness document. -/
theorem final_transactions_invariant_witness :
    c5Row.description ≠ [] ∧
      (c5Row.amount ≠ none ∨ c5Row.debit ≠ none ∨ c5Row.credit ≠ none ∨
        c5Row.balance ≠ none) :=
  final_transactions_invariant c5Pdf c5Row (List.head_mem c5_rows_ne_nil)

end PdfParser
